import Mathlib

/-!
Verification development for the Lode-Runner-style procedural level
generation pipeline (Markov structure generator, structure repair pass,
entity placement heuristic, reachability/solvability engine, generation
orchestrator).

The TypeScript sources are embedded shallowly:

* machine numbers (JS doubles used as array indices and coordinates)
  become `Int` / `Nat`; JS floats in `[0,1)` coming from `rng()` and the
  probabilities stored in the transition table become `ℚ` (the JS code
  performs the same arithmetic up to floating-point rounding);
* a JS `Set` of `"x,y"` strings becomes a `List Pos` (the string encoding
  of a coordinate pair is injective, so the pair itself is used as key);
* the JS `Map` (which preserves insertion order and updates in place)
  becomes an association list with in-place update (`alistSet`);
* the stateful `rng: () => number` closure becomes a stream `Nat → ℚ`
  together with an explicit draw counter that is threaded through;
  `Math.random` (used by the repair pass) becomes a second stream;
* bounded `while` loops become fuel recursion where the fuel is exactly
  the source's iteration budget;
* in-place array mutation is modelled functionally; additionally the
  read-only claims are settled over an explicit state-passing embedding
  (`LevelM`) in which writes are expressible.
-/

set_option maxRecDepth 100000

namespace LodeRunner

/-- Tile alphabet of the VGLC format, from `types.ts` (`TILES`):
`.` empty, `b` brick (diggable), `B` solid, `#` ladder, `-` rope,
`G` gold, `E` enemy, `M` spawn. -/
inductive Tile where
  | empty
  | brick
  | solid
  | ladder
  | rope
  | gold
  | enemy
  | spawn
deriving DecidableEq, Fintype

/-- The `passable` flag of `TILE_PROPERTIES` in `types.ts`. -/
def Tile.passable : Tile → Bool
  | .empty => true
  | .brick => false
  | .solid => false
  | .ladder => true
  | .rope => true
  | .gold => true
  | .enemy => true
  | .spawn => true

/-- The `ground` flag of `TILE_PROPERTIES` in `types.ts`. -/
def Tile.ground : Tile → Bool
  | .brick => true
  | .solid => true
  | _ => false

/-- The `solid` flag of `TILE_PROPERTIES` in `types.ts`. -/
def Tile.solidFlag : Tile → Bool
  | .brick => true
  | .solid => true
  | _ => false

/-- The `climbable` flag of `TILE_PROPERTIES` in `types.ts`. -/
def Tile.climbable : Tile → Bool
  | .ladder => true
  | .rope => true
  | _ => false

/-- The `diggable` flag of `TILE_PROPERTIES` in `types.ts`. -/
def Tile.diggable : Tile → Bool
  | .brick => true
  | _ => false

/-- A level is a row-major grid of tiles (`Level = TileChar[][]`). -/
abbrev Level := List (List Tile)

/-- A grid position, `Position` in `types.ts`.  Coordinates are `Int`
because the JS code freely forms `x - 1` / `y - 1` before bounds checks. -/
structure Pos where
  x : Int
  y : Int
deriving DecidableEq

/-- Bounds-checked cell read, `getTile` in `levelParser.ts`:
out-of-bounds reads return `null` (`none`). -/
def getTile (level : Level) (x y : Int) : Option Tile :=
  match level.get? y.toNat with
  | none => none
  | some row =>
    if y < 0 ∨ x < 0 ∨ (row.length : Int) ≤ x then none
    else row.get? x.toNat

/-- Bounds-checked cell write, `setTile` in `levelParser.ts` (the
copy-on-write clone is the identity in a functional embedding; writes
outside the grid are ignored, as in the source). -/
def setTile (level : Level) (x y : Int) (tile : Tile) : Level :=
  if 0 ≤ y ∧ 0 ≤ x then
    match level.get? y.toNat with
    | none => level
    | some row =>
      if x < (row.length : Int) then level.set y.toNat (row.set x.toNat tile)
      else level
  else level

/-- Grid of `height` rows of `width` copies of a fill tile,
`createEmptyLevel` in `levelParser.ts` (fill tile defaulted to Empty). -/
def createEmptyLevel (width height : Nat) : Level :=
  List.replicate height (List.replicate width Tile.empty)

/-- Row-major scan for all positions of a tile, `findTiles` in
`levelParser.ts`. -/
def findTiles (level : Level) (tile : Tile) : List Pos :=
  (List.range level.length).flatMap (fun yn =>
    let row := (level.get? yn).getD []
    (List.range row.length).filterMap (fun xn =>
      if row.get? xn = some tile then some ⟨(xn : Int), (yn : Int)⟩ else none))

/-- First spawn tile in row-major order, `getSpawnPosition`. -/
def getSpawnPosition (level : Level) : Option Pos :=
  (findTiles level Tile.spawn).head?

/-- All gold positions in row-major order, `getGoldPositions`. -/
def getGoldPositions (level : Level) : List Pos :=
  findTiles level Tile.gold

/-- Entity stripping, `normalizeLevel` in `levelParser.ts`: gold, enemy
and spawn tiles become empty. -/
def normalizeLevel (level : Level) : Level :=
  level.map (fun row => row.map (fun t =>
    if t = Tile.gold ∨ t = Tile.enemy ∨ t = Tile.spawn then Tile.empty else t))

/-- Number of rows of the grid (`level.length`). -/
def levelHeight (level : Level) : Nat := level.length

/-- Width used throughout the source: `level[0]?.length || 0`. -/
def levelWidth (level : Level) : Nat :=
  (level.head?.map List.length).getD 0

/-!  Movement model of `solvabilityChecker.ts`. -/

/-- Ground support test, `hasGroundSupport`: on a ladder or rope, or the
cell below is ground (brick/solid), or the cell below is a ladder. -/
def hasGroundSupport (level : Level) (x y : Int) : Bool :=
  let below := getTile level x (y + 1)
  let current := getTile level x y
  if current = some Tile.ladder ∨ current = some Tile.rope then true
  else if (below.map Tile.ground).getD false then true
  else if below = some Tile.ladder then true
  else false

/-- Passability test, `isPassable`: out of bounds is not passable, a dug
cell is passable, otherwise the tile's `passable` flag decides. -/
def isPassable (level : Level) (x y : Int) (dug : List Pos) : Bool :=
  match getTile level x y with
  | none => false
  | some tile => if (⟨x, y⟩ : Pos) ∈ dug then true else tile.passable

/-- Dig test, `canDig`: only brick tiles can be dug. -/
def canDig (level : Level) (x y : Int) : Bool :=
  getTile level x y = some Tile.brick

/-- A move produced by `getValidMoves`: a destination plus an optional
cell that is dug by taking the move. -/
structure Move where
  x : Int
  y : Int
  dig : Option Pos
deriving DecidableEq

/-- Downward scan of the falling branch of `getValidMoves` (the inner
`while (landY < height)` loop): land one row above the first
non-passable cell, or stop at the first ladder/rope cell. -/
def fallScan (level : Level) (x : Int) (dug : List Pos) : Int → Nat → List Move
  | _, 0 => []
  | landY, fuel + 1 =>
    if landY < (level.length : Int) then
      if ¬ isPassable level x landY dug then [⟨x, landY - 1, none⟩]
      else if getTile level x landY = some Tile.ladder ∨ getTile level x landY = some Tile.rope then
        [⟨x, landY, none⟩]
      else fallScan level x dug (landY + 1) fuel
    else []

/-- Fuel that makes `fallScan` scan every row below `y`, exactly like the
source loop from `landY = y + 1` up to `height - 1`. -/
def fallFuel (level : Level) (y : Int) : Nat :=
  ((level.length : Int) - (y + 1)).toNat

/-- Legal transitions from a position, `getValidMoves` in
`solvabilityChecker.ts`.  The falling branch returns only the fall
result; otherwise the moves are emitted in source order: left, right,
climb up, climb/drop down, dig left, dig right. -/
def getValidMoves (level : Level) (x y : Int) (dug : List Pos) : List Move :=
  let current := getTile level x y
  let height := (level.length : Int)
  let width := (levelWidth level : Int)
  let onClimbable := current = some Tile.ladder ∨ current = some Tile.rope
  let hasSupport := hasGroundSupport level x y
  if ¬ hasSupport ∧ ¬ onClimbable then
    fallScan level x dug (y + 1) (fallFuel level y)
  else
    (if 0 < x ∧ isPassable level (x - 1) y dug then [⟨x - 1, y, none⟩] else []) ++
    (if x < width - 1 ∧ isPassable level (x + 1) y dug then [⟨x + 1, y, none⟩] else []) ++
    (if current = some Tile.ladder ∧ 0 < y ∧ isPassable level x (y - 1) dug then
      [⟨x, y - 1, none⟩] else []) ++
    (if y < height - 1 then
      (if getTile level x (y + 1) = some Tile.ladder ∨ (⟨x, y + 1⟩ : Pos) ∈ dug then
        [⟨x, y + 1, none⟩]
      else if current = some Tile.ladder ∧ isPassable level x (y + 1) dug then
        [⟨x, y + 1, none⟩]
      else [])
     else []) ++
    (if hasSupport ∧ 0 < x then
      (if y + 1 < height ∧ canDig level (x - 1) (y + 1) ∧ ¬ (⟨x - 1, y + 1⟩ : Pos) ∈ dug then
        [⟨x - 1, y, some ⟨x - 1, y + 1⟩⟩] else [])
     else []) ++
    (if hasSupport ∧ x < width - 1 then
      (if y + 1 < height ∧ canDig level (x + 1) (y + 1) ∧ ¬ (⟨x + 1, y + 1⟩ : Pos) ∈ dug then
        [⟨x + 1, y, some ⟨x + 1, y + 1⟩⟩] else [])
     else []) ++ []

/-- Extension of a dug-set by an optional dig (the JS `Set.add`). -/
def addDug (dug : List Pos) : Option Pos → List Pos
  | none => dug
  | some p => if p ∈ dug then dug else dug ++ [p]

/-- A BFS queue entry of `getReachablePositions`: position plus the
dug-set of the path that produced it. -/
structure ReachState where
  x : Int
  y : Int
  dug : List Pos
deriving DecidableEq

/-- The visited-set key the BFS actually uses: the source builds the
string key from the position only (the dug-set is not part of it). -/
def reachKey (s : ReachState) : Pos := ⟨s.x, s.y⟩

/-- BFS worker of `getReachablePositions`.  One unit of fuel is one
iteration of the `while (queue.length > 0 && iterations < maxIterations)`
loop. -/
def bfsAux (level : Level) : Nat → List ReachState → List Pos → List Pos → List Pos
  | 0, _, _, reachable => reachable
  | _ + 1, [], _, reachable => reachable
  | fuel + 1, st :: queue, visited, reachable =>
    let key := reachKey st
    if key ∈ visited then bfsAux level fuel queue visited reachable
    else
      let visited' := key :: visited
      let reachable' := reachable ++ [key]
      let moves := getValidMoves level st.x st.y st.dug
      let queue' := queue ++ moves.filterMap (fun m =>
        if (⟨m.x, m.y⟩ : Pos) ∈ visited' then none
        else some ⟨m.x, m.y, addDug st.dug m.dig⟩)
      bfsAux level fuel queue' visited' reachable'

/-- All positions reachable from a start cell under the movement model,
`getReachablePositions` in `solvabilityChecker.ts` (iteration cap
50000 as in the source). -/
def getReachablePositions (level : Level) (startX startY : Int)
    (maxIterations : Nat := 50000) : List Pos :=
  bfsAux level maxIterations [⟨startX, startY, []⟩] [] []

/-- Result record of the basic validator, `ValidationResult` in
`types.ts`. -/
structure ValidationResult where
  valid : Bool
  reachableGold : List Pos
  unreachableGold : List Pos
  spawnPosition : Option Pos
  issues : List String
deriving DecidableEq

/-- Issue string for an unreachable gold piece. -/
def goldIssue (p : Pos) : String :=
  let gx := p.x
  let gy := p.y
  ("Gold at (" ++ toString gx ++ ", " ++ toString gy ++ ") is unreachable")

/-- Issue string for an unsupported spawn cell. -/
def spawnIssue (p : Pos) : String :=
  let sx := p.x
  let sy := p.y
  ("Spawn position (" ++ toString sx ++ ", " ++ toString sy ++ ") has no ground support")

/-- Basic validation, `validateLevel` in `solvabilityChecker.ts`:
missing spawn fails immediately; an unsupported non-climbable spawn is
flagged as an issue; gold positions are partitioned into reachable and
unreachable against the BFS reachable set; `valid` holds iff there is no
unreachable gold and no issue. -/
def validateLevel (level : Level) : ValidationResult :=
  let goldPositions := getGoldPositions level
  match getSpawnPosition level with
  | none =>
    ⟨false, [], goldPositions, none, ["No spawn position (M) found in level"]⟩
  | some spawn =>
    let supportIssues : List String :=
      if ¬ hasGroundSupport level spawn.x spawn.y = true ∧
         ¬ (getTile level spawn.x spawn.y = some Tile.ladder ∨
            getTile level spawn.x spawn.y = some Tile.rope) then
        [spawnIssue spawn]
      else []
    let goldCountIssues : List String :=
      if goldPositions = [] then ["No gold (G) found in level"] else []
    let reachable := getReachablePositions level spawn.x spawn.y
    let reachableGold := goldPositions.filter (fun g => g ∈ reachable)
    let unreachableGold := goldPositions.filter (fun g => ¬ g ∈ reachable)
    let issues := supportIssues ++ goldCountIssues ++ unreachableGold.map goldIssue
    ⟨unreachableGold.isEmpty && issues.isEmpty, reachableGold, unreachableGold,
      some spawn, issues⟩

/-- Quick check, `isSolvable`. -/
def isSolvable (level : Level) : Bool :=
  (validateLevel level).valid

/-!  Full solvability search of `solvabilityChecker.ts`. -/

/-- A node of the full A* search, `FullNode`: position, collected-gold
bitmask, dug-set and costs (the unused `parent` pointer is dropped). -/
structure FullNode where
  x : Int
  y : Int
  collectedGold : Nat
  dug : List Pos
  g : Nat
  h : Nat
  f : Nat
deriving DecidableEq

/-- Visited-set key of the full solver, `stateKey`: the source encodes
exactly position and collected-gold bitmask into the key string. -/
def stateKey (n : FullNode) : Int × Int × Nat := (n.x, n.y, n.collectedGold)

/-- Manhattan distance, `heuristic`. -/
def manhattan (x1 y1 x2 y2 : Int) : Nat :=
  (x1 - x2).natAbs + (y1 - y2).natAbs

/-- Minimum of a list of naturals, `none` for the empty list (the JS code
uses `Infinity` as the neutral element). -/
def listMin : List Nat → Option Nat
  | [] => none
  | n :: ns =>
    match listMin ns with
    | none => some n
    | some m => some (Nat.min n m)

/-- Admissible heuristic of the full solver, `fullHeuristic`: distance to
the nearest uncollected gold plus the minimum distance from any
uncollected gold to any escape, or distance to the nearest escape once
all gold is collected. -/
def fullHeuristic (x y : Int) (collectedGold : Nat)
    (goldPositions escapePositions : List Pos) : Nat :=
  if collectedGold = 2 ^ goldPositions.length - 1 then
    match listMin (escapePositions.map (fun e => manhattan x y e.x e.y)) with
    | none => 0
    | some d => d
  else
    let uncollected := (List.range goldPositions.length).filterMap (fun i =>
      if Nat.testBit collectedGold i then none else goldPositions.get? i)
    match listMin (uncollected.map (fun p => manhattan x y p.x p.y)) with
    | none => 0
    | some minGoldDist =>
      let escDists := escapePositions.flatMap (fun e =>
        uncollected.map (fun p => manhattan p.x p.y e.x e.y))
      minGoldDist + (listMin escDists).getD 0

/-- Escape cells, `findEscapePositions`: top-row ladders, or top-row
empties with a ladder below; if none exist, any top-row cell that is
empty, rope or ladder. -/
def findEscapePositions (level : Level) : List Pos :=
  let width := levelWidth level
  let primary := (List.range width).filterMap (fun xn =>
    let x := (xn : Int)
    if getTile level x 0 = some Tile.ladder then some (⟨x, 0⟩ : Pos)
    else if getTile level x 0 = some Tile.empty ∧ getTile level x 1 = some Tile.ladder then
      some (⟨x, 0⟩ : Pos)
    else none)
  if primary = [] then
    (List.range width).filterMap (fun xn =>
      let x := (xn : Int)
      match getTile level x 0 with
      | some Tile.empty => some (⟨x, 0⟩ : Pos)
      | some Tile.rope => some (⟨x, 0⟩ : Pos)
      | some Tile.ladder => some (⟨x, 0⟩ : Pos)
      | _ => none)
  else primary

/-- Index of the gold piece at a position (`goldAtPosition` lookup map;
gold positions are pairwise distinct, so first match is the map entry). -/
def goldIndexAt (goldPositions : List Pos) (x y : Int) : Option Nat :=
  goldPositions.findIdx? (fun p => p = (⟨x, y⟩ : Pos))

/-- Result of the full solver: `{ solvable, reason? }`. -/
structure SolveResult where
  solvable : Bool
  reason : Option String
deriving DecidableEq

/-- Reason string for an exhausted iteration budget. -/
def exceededMsg (maxIterations : Nat) : String :=
  ("Search exceeded " ++ toString maxIterations ++ " iterations")

/-- Reason string when the open set empties without success. -/
def noPathMsg : String :=
  "No path found to collect all gold and escape"

/-- Stable insertion of a node into a list sorted by ascending `f`
(model of the stable JS `sort((a, b) => a.f - b.f)`). -/
def insertByF (n : FullNode) : List FullNode → List FullNode
  | [] => [n]
  | m :: ms => if n.f ≤ m.f then n :: m :: ms else m :: insertByF n ms

/-- Stable sort by ascending `f`. -/
def sortByF : List FullNode → List FullNode
  | [] => []
  | n :: ns => insertByF n (sortByF ns)

/-- A* loop of `canSolveLevel`.  One unit of fuel is one iteration of
the `while (openSet.length > 0 && iterations < maxIterations)` loop;
at fuel 0 the loop has performed `maxIterations` iterations, so the
source's trailing `iterations >= maxIterations` test yields the
exhaustion reason. -/
def solveLoop (level : Level) (goldPositions escapePositions : List Pos)
    (allGoldMask maxIterations : Nat) :
    Nat → List FullNode → List (Int × Int × Nat) → SolveResult
  | 0, _, _ => ⟨false, some (exceededMsg maxIterations)⟩
  | _ + 1, [], _ => ⟨false, some noPathMsg⟩
  | fuel + 1, o :: os, visited =>
    match sortByF (o :: os) with
    | [] => ⟨false, some noPathMsg⟩
    | current :: rest =>
      if current.collectedGold = allGoldMask ∧
         (⟨current.x, current.y⟩ : Pos) ∈ escapePositions then
        ⟨true, none⟩
      else if stateKey current ∈ visited then
        solveLoop level goldPositions escapePositions allGoldMask maxIterations
          fuel rest visited
      else
        let visited' := stateKey current :: visited
        let moves := getValidMoves level current.x current.y current.dug
        let newNodes := moves.filterMap (fun m =>
          let newCollected :=
            match goldIndexAt goldPositions m.x m.y with
            | some idx => current.collectedGold ||| 2 ^ idx
            | none => current.collectedGold
          if ((m.x, m.y, newCollected) : Int × Int × Nat) ∈ visited' then none
          else
            let gCost := current.g + 1
            let hCost := fullHeuristic m.x m.y newCollected goldPositions escapePositions
            some ⟨m.x, m.y, newCollected, addDug current.dug m.dig, gCost, hCost,
              gCost + hCost⟩)
        solveLoop level goldPositions escapePositions allGoldMask maxIterations
          fuel (rest ++ newNodes) visited'

/-- Full solvability check, `canSolveLevel` in `solvabilityChecker.ts`:
structured failures for missing spawn, missing gold and missing escape
positions; a grid with more than 16 gold pieces short-circuits to the
basic validator; otherwise A* over (position, gold-bitmask, dug-set)
states with the source's iteration budget. -/
def canSolveLevel (level : Level) (maxIterations : Nat := 100000) : SolveResult :=
  match getSpawnPosition level with
  | none => ⟨false, some ("No spawn position")⟩
  | some spawn =>
    let goldPositions := getGoldPositions level
    if goldPositions.length = 0 then ⟨false, some ("No gold in level")⟩
    else if 16 < goldPositions.length then
      let result := validateLevel level
      ⟨result.valid,
        if result.valid then none else some ("Too many gold pieces for full solve check")⟩
    else
      let escapePositions := findEscapePositions level
      if escapePositions = [] then
        ⟨false, some ("No escape positions at top of level")⟩
      else
        let allGoldMask := 2 ^ goldPositions.length - 1
        let startH := fullHeuristic spawn.x spawn.y 0 goldPositions escapePositions
        let startCollected :=
          match goldIndexAt goldPositions spawn.x spawn.y with
          | some idx => 2 ^ idx
          | none => 0
        let startNode : FullNode :=
          ⟨spawn.x, spawn.y, startCollected, [], 0, startH, startH⟩
        solveLoop level goldPositions escapePositions allGoldMask maxIterations
          maxIterations [startNode] []

/-- Quick full check, `isFullySolvable`. -/
def isFullySolvable (level : Level) : Bool :=
  (canSolveLevel level).solvable

/-- BFS variant that follows the spec's words instead of the source: the
visited-set identity is the pair (position, dug-set), so the same cell is
re-expanded when it is reached with a different dig history
(spec §3 Reachability State / §4.4 Basic reachability).  Used only to
compare against `getReachablePositions`. -/
def bfsAuxDugKey (level : Level) :
    Nat → List ReachState → List (Pos × List Pos) → List Pos → List Pos
  | 0, _, _, reachable => reachable
  | _ + 1, [], _, reachable => reachable
  | fuel + 1, st :: queue, visited, reachable =>
    let key : Pos × List Pos := (⟨st.x, st.y⟩, st.dug)
    if key ∈ visited then bfsAuxDugKey level fuel queue visited reachable
    else
      let visited' := key :: visited
      let reachable' :=
        if (⟨st.x, st.y⟩ : Pos) ∈ reachable then reachable
        else reachable ++ [(⟨st.x, st.y⟩ : Pos)]
      let moves := getValidMoves level st.x st.y st.dug
      let queue' := queue ++ moves.map (fun m =>
        (⟨m.x, m.y, addDug st.dug m.dig⟩ : ReachState))
      bfsAuxDugKey level fuel queue' visited' reachable'

/-- Reachable set under the spec's (position, dug-set) visited identity.
This definition follows the specification text, not the source. -/
def getReachablePositionsDugKey (level : Level) (startX startY : Int)
    (maxIterations : Nat := 50000) : List Pos :=
  bfsAuxDugKey level maxIterations [⟨startX, startY, []⟩] [] []

/-!  Markov chain structure generator, `markovGenerator.ts`. -/

/-- Context of the 2D Markov model, `MarkovContext`/`getContextKey`: the
tiles above, left and above-left of a cell (out of bounds is a distinct
sentinel, `'X'` in the string key — the string encoding is injective in
this triple, so the triple itself is the key). -/
abbrev ContextKey := Option Tile × Option Tile × Option Tile

/-- Context of a cell, `getContext`. -/
def getContext (level : Level) (x y : Int) : ContextKey :=
  (getTile level x (y - 1), getTile level (x - 1) y, getTile level (x - 1) (y - 1))

/-- Association-list lookup (JS `Map.get`). -/
def alistGet {κ ν : Type} [DecidableEq κ] (k : κ) : List (κ × ν) → Option ν
  | [] => none
  | (k', v) :: rest => if k' = k then some v else alistGet k rest

/-- Association-list update (JS `Map.set`): updates an existing key in
place, keeping insertion order, or appends a new entry. -/
def alistSet {κ ν : Type} [DecidableEq κ] (k : κ) (v : ν) : List (κ × ν) → List (κ × ν)
  | [] => [(k, v)]
  | (k', v') :: rest => if k' = k then (k, v) :: rest else (k', v') :: alistSet k v rest

/-- Frequency-count table built by `train` before normalization. -/
abbrev CountsMap := List (ContextKey × List (Tile × Nat))

/-- Normalized transition table, `TransitionMap`. -/
abbrev TransitionMap := List (ContextKey × List (Tile × ℚ))

/-- One `tileMap.set(tile, (tileMap.get(tile) || 0) + 1)` step. -/
def bumpTile (t : Tile) (m : List (Tile × Nat)) : List (Tile × Nat) :=
  alistSet t ((alistGet t m).getD 0 + 1) m

/-- Counting pass of `MarkovLevelGenerator.train` over one level: every
cell of the entity-stripped grid increments the counter of its observed
tile under its context key. -/
def trainCountsLevel (acc : CountsMap) (level : Level) : CountsMap :=
  let normalized := normalizeLevel level
  (List.range normalized.length).foldl (fun a yn =>
    let row := (normalized.get? yn).getD []
    (List.range row.length).foldl (fun a2 xn =>
      let tile := (row.get? xn).getD Tile.empty
      let key := getContext normalized (xn : Int) (yn : Int)
      alistSet key (bumpTile tile ((alistGet key a2).getD [])) a2) a) acc

/-- Counting pass of `train` over a corpus. -/
def trainCounts (levels : List Level) : CountsMap :=
  levels.foldl trainCountsLevel []

/-- Per-key normalization of `train`: divide every count by the key's
total. -/
def normalizeRow (m : List (Tile × Nat)) : List (Tile × ℚ) :=
  let total : Nat := (m.map (fun e => e.2)).sum
  m.map (fun e => (e.1, (e.2 : ℚ) / (total : ℚ)))

/-- Model training, `MarkovLevelGenerator.train`: frequency counting over
the given levels (entity-stripped), then per-key normalization.  The
function is deterministic in its argument; it does not itself add
mirrored copies of the corpus. -/
def train (levels : List Level) : TransitionMap :=
  (trainCounts levels).map (fun e => (e.1, normalizeRow e.2))

/-- Horizontal mirror of a level, `flipLevelHorizontal` in the training
script. -/
def flipLevelHorizontal (level : Level) : Level :=
  level.map List.reverse

/-- Corpus augmentation of the training script, `augmentLevels`: each
level followed by its horizontal mirror. -/
def augmentLevels (levels : List Level) : List Level :=
  levels.flatMap (fun l => [l, flipLevelHorizontal l])

/-- Training as the claim words it: counting over every training grid and
additionally over a horizontally mirrored duplicate of each grid.  This
definition follows the claim/spec text (train composed with the training
script's augmentation), to be compared with `train` itself. -/
def trainWithMirrors (levels : List Level) : TransitionMap :=
  train (augmentLevels levels)

/-- Fallback prior of `sampleTile` for unseen contexts: Empty 60 %,
Brick 20 %, Ladder 10 %, Solid 5 %, Rope 5 %. -/
def fallbackTile (r : ℚ) : Tile :=
  if r < 3 / 5 then Tile.empty
  else if r < 4 / 5 then Tile.brick
  else if r < 9 / 10 then Tile.ladder
  else if r < 19 / 20 then Tile.solid
  else Tile.rope

/-- Cumulative-probability walk of `sampleTile`: first tile whose
cumulative probability reaches the draw. -/
def cumulativeWalk (r : ℚ) : ℚ → List (Tile × ℚ) → Option Tile
  | _, [] => none
  | cumulative, (t, p) :: rest =>
    let c := cumulative + p
    if r ≤ c then some t else cumulativeWalk r c rest

/-- Weighted sampling of one tile, `sampleTile`: table lookup plus
cumulative walk, with the fixed fallback prior for unseen contexts and
the first table tile as final fallback. -/
def sampleTile (transitions : TransitionMap) (ctx : ContextKey) (r : ℚ) : Tile :=
  match alistGet ctx transitions with
  | none => fallbackTile r
  | some tileMap =>
    if tileMap = [] then fallbackTile r
    else
      match cumulativeWalk r 0 tileMap with
      | some t => t
      | none => ((tileMap.head?).map (fun e => e.1)).getD Tile.empty

/-- One cell of the sampling loop of `generateStructure`: sample from the
context of already-generated neighbors and write the tile. -/
def sampleCell (transitions : TransitionMap) (rng : Nat → ℚ) (i0 width : Nat)
    (yn : Nat) (l2 : Level) (xn : Nat) : Level :=
  let ctx := getContext l2 (xn : Int) (yn : Int)
  let t := sampleTile transitions ctx (rng ((i0 + yn * width + xn : Nat)))
  setTile l2 (xn : Int) (yn : Int) t

/-- The bottom-row fill loop of `generateStructure`. -/
def solidFloor (height : Nat) (base : Level) (width : Nat) : Level :=
  (List.range width).foldl
    (fun l (xn : Nat) => setTile l (xn : Int) ((height : Int) - 1) Tile.solid) base

/-- Structure sampling, `MarkovLevelGenerator.generateStructure`: an
empty grid whose entire bottom row is forced to Solid, then every cell of
rows `0 .. height-2` sampled in row-major order from the context of
already-generated neighbors, one rng draw per cell (draws are indexed
from `i0` in sampling order). -/
def generateStructure (transitions : TransitionMap) (width height : Nat)
    (rng : Nat → ℚ) (i0 : Nat) : Level :=
  let base := createEmptyLevel width height
  let floored := solidFloor height base width
  (List.range (height - 1)).foldl (fun l (yn : Nat) =>
    (List.range width).foldl (sampleCell transitions rng i0 width yn) l) floored

/-- Number of rng draws `generateStructure` consumes. -/
def generateStructureDraws (width height : Nat) : Nat :=
  (height - 1) * width

/-- Repair pass, `MarkovLevelGenerator.postProcessStructure`: one
row-major sweep over a copy of the grid.  A ladder not in the last two
rows with Empty directly below is extended downward (draw < 0.7) or
deleted; a rope with Brick/Solid directly below becomes Empty
(draw < 0.5) or Ladder.  The sweep reads the copy it is mutating, as the
source does (`const tile = processed[y][x]`), and draws come from the
`Math.random` stream `mrand` starting at index `j0`; the draw counter is
returned because draws are made only at repaired cells. -/
def postProcessStructure (level : Level) (mrand : Nat → ℚ) (j0 : Nat) : Level × Nat :=
  let height := level.length
  let width := levelWidth level
  (List.range height).foldl (fun acc yn =>
    (List.range width).foldl (fun acc2 xn =>
      let processed := acc2.1
      let j := acc2.2
      let x := (xn : Int)
      let y := (yn : Int)
      let tile := getTile processed x y
      let afterLadder : Level × Nat :=
        if tile = some Tile.ladder ∧ y < (height : Int) - 2 then
          if getTile processed x (y + 1) = some Tile.empty then
            if mrand j < 7 / 10 then (setTile processed x (y + 1) Tile.ladder, j + 1)
            else (setTile processed x y Tile.empty, j + 1)
          else (processed, j)
        else (processed, j)
      if tile = some Tile.rope then
        let below := getTile afterLadder.1 x (y + 1)
        if below = some Tile.brick ∨ below = some Tile.solid then
          if mrand afterLadder.2 < 1 / 2 then
            (setTile afterLadder.1 x y Tile.empty, afterLadder.2 + 1)
          else (setTile afterLadder.1 x y Tile.ladder, afterLadder.2 + 1)
        else afterLadder
      else afterLadder) acc) (level, j0)

/-- Repair pass as the claim words it: a single pass in which a repaired
ladder extension is not itself re-examined — every cell is examined as it
is in the input grid, while repairs are written to the output copy.  This
definition follows the claim/spec text, to be compared with
`postProcessStructure`. -/
def postProcessStructureNoReexam (level : Level) (mrand : Nat → ℚ) (j0 : Nat) :
    Level × Nat :=
  let height := level.length
  let width := levelWidth level
  (List.range height).foldl (fun acc yn =>
    (List.range width).foldl (fun acc2 xn =>
      let processed := acc2.1
      let j := acc2.2
      let x := (xn : Int)
      let y := (yn : Int)
      let tile := getTile level x y
      let afterLadder : Level × Nat :=
        if tile = some Tile.ladder ∧ y < (height : Int) - 2 then
          if getTile level x (y + 1) = some Tile.empty then
            if mrand j < 7 / 10 then (setTile processed x (y + 1) Tile.ladder, j + 1)
            else (setTile processed x y Tile.empty, j + 1)
          else (processed, j)
        else (processed, j)
      if tile = some Tile.rope then
        let below := getTile level x (y + 1)
        if below = some Tile.brick ∨ below = some Tile.solid then
          if mrand afterLadder.2 < 1 / 2 then
            (setTile afterLadder.1 x y Tile.empty, afterLadder.2 + 1)
          else (setTile afterLadder.1 x y Tile.ladder, afterLadder.2 + 1)
        else afterLadder
      else afterLadder) acc) (level, j0)

/-!  Entity placement and orchestrator, `levelGenerator.ts`. -/

/-- Valid spawn/gold cells of `placeEntities`: a cell in rows
`0 .. height-2` that is Empty, Ladder or Rope and either has
Brick/Solid/Ladder directly below or is itself a Ladder; scan order is
row-major as in the source. -/
def validPositions (level : Level) : List Pos :=
  let height := level.length
  let width := levelWidth level
  (List.range (height - 1)).flatMap (fun (yn : Nat) =>
    (List.range width).filterMap (fun (xn : Nat) =>
      let x := (xn : Int)
      let y := (yn : Int)
      let tile := getTile level x y
      let below := getTile level x (y + 1)
      let hasGround := below = some Tile.brick ∨ below = some Tile.solid ∨
        below = some Tile.ladder
      let passableHere := tile = some Tile.empty ∨ tile = some Tile.ladder ∨
        tile = some Tile.rope
      if passableHere ∧ (hasGround ∨ tile = some Tile.ladder) then
        some (⟨x, y⟩ : Pos)
      else none))

/-- Fallback spawn scan of `placeEntities`: the first Empty cell of the
second-to-last row among columns `1 .. min(10, width) - 1`. -/
def fallbackSpawn (level : Level) : List Pos :=
  let height := level.length
  let width := levelWidth level
  match (List.range (Nat.min 10 width)).find? (fun (xn : Nat) =>
    1 ≤ xn ∧ getTile level (xn : Int) ((height : Int) - 2) = some Tile.empty) with
  | some xn => [⟨(xn : Int), (height : Int) - 2⟩]
  | none => []

/-- Stable insertion for the descending-by-row sort of
`validSpawnPositions.sort((a, b) => b.y - a.y)`. -/
def insertByYDesc (p : Pos) : List Pos → List Pos
  | [] => [p]
  | q :: qs => if q.y ≤ p.y then p :: q :: qs else q :: insertByYDesc p qs

/-- Stable sort by descending row. -/
def sortByYDesc : List Pos → List Pos
  | [] => []
  | p :: ps => insertByYDesc p (sortByYDesc ps)

/-- One insertion of the random-comparator shuffle
`sort(() => rng() - 0.5)`: each comparison consumes one draw; the element
is placed before the compared element when the draw is below one half.
The engine-specific comparison order of the JS sort is not observable
through any claim; a comparison sort is modelled, which (like the JS
sort) always produces a permutation of its input. -/
def shuffleInsert (rng : Nat → ℚ) (p : Pos) : List Pos → Nat → List Pos × Nat
  | [], i => ([p], i)
  | q :: qs, i =>
    if rng i - 1 / 2 < 0 then (p :: q :: qs, i + 1)
    else
      let rest := shuffleInsert rng p qs (i + 1)
      (q :: rest.1, rest.2)

/-- Random-comparator shuffle of a position list, threading the draw
counter. -/
def shuffleList (rng : Nat → ℚ) : List Pos → Nat → List Pos × Nat
  | [], i => ([], i)
  | p :: ps, i =>
    let sorted := shuffleList rng ps i
    shuffleInsert rng p sorted.1 sorted.2

/-- Fold that writes a tile at each listed position whose current cell is
Empty (the gold and enemy placement loops of `placeEntities`). -/
def placeOnEmptyFold (t : Tile) (level : Level) (ps : List Pos) : Level :=
  ps.foldl (fun l p =>
    if getTile l p.x p.y = some Tile.empty then setTile l p.x p.y t else l) level

/-- JS `Math.floor` on a rational, used for the spawn index draw. -/
def jsFloor (q : ℚ) : Int := Int.floor q

/-- Placement body of `placeEntities`, run after the spawn cell has been
chosen: mark the spawn, compute the reachable set from it on the
spawn-marked grid, filter the valid gold candidates to the reachable
ones, then shuffle and write up to `goldCount` Gold and, from the
remaining candidates, up to `enemyCount` Enemy — each written only onto
Empty cells.  Returns the level and the next rng draw index. -/
def placeEntitiesCore (level : Level) (spawn : Pos) (goldCount enemyCount : Nat)
    (rng : Nat → ℚ) (i0 : Nat) : Level × Nat :=
  let level1 := setTile level spawn.x spawn.y Tile.spawn
  let filteredGold := (validPositions level).filter (fun p => ¬ p = spawn)
  let reachable := getReachablePositions level1 spawn.x spawn.y
  let reachableGoldPositions := filteredGold.filter (fun p => p ∈ reachable)
  let goldToPlace := Nat.min goldCount reachableGoldPositions.length
  let shuffledGold := shuffleList rng reachableGoldPositions (i0 + 1)
  let goldTargets := shuffledGold.1.take goldToPlace
  let level2 := placeOnEmptyFold Tile.gold level1 goldTargets
  let used := spawn :: goldTargets
  let enemyCandidates := reachableGoldPositions.filter (fun p => ¬ p ∈ used)
  let shuffledEnemies := shuffleList rng enemyCandidates shuffledGold.2
  let enemyTargets := shuffledEnemies.1.take (Nat.min enemyCount shuffledEnemies.1.length)
  let level3 := placeOnEmptyFold Tile.enemy level2 enemyTargets
  (level3, shuffledEnemies.2)

/-- Entity placement, `placeEntities` in `levelGenerator.ts`: enumerate
valid cells, choose a spawn among the five bottom-most candidates (with a
fallback scan when no cell is valid; no candidate at all returns the
structure unchanged), then run the placement body `placeEntitiesCore`
(the gold candidate list is the unfiltered valid-position scan, which
the fallback branch never extends). -/
def placeEntities (struct0 : Level) (goldCount enemyCount : Nat)
    (rng : Nat → ℚ) (i0 : Nat) : Level × Nat :=
  let level := struct0
  let valids := validPositions level
  let validSpawnPositions := if valids = [] then fallbackSpawn level else valids
  match validSpawnPositions with
  | [] => (level, i0)
  | vp0 :: vps =>
    let sorted := sortByYDesc (vp0 :: vps)
    let spawnIdx := (jsFloor (rng i0 * ((Nat.min 5 sorted.length : Nat) : ℚ))).toNat
    let spawn := sorted.getD spawnIdx ⟨0, 0⟩
    placeEntitiesCore level spawn goldCount enemyCount rng i0

/-- Generation request, `GeneratorConfig` with the source defaults. -/
structure GenConfig where
  width : Nat := 28
  height : Nat := 16
  goldCount : Nat := 5
  enemyCount : Nat := 2
deriving DecidableEq

/-- One raw generation, `generateRaw`: structure sampling, repair pass,
entity placement.  Returns the level together with the next indices of
the `rng` stream and of the `Math.random` stream. -/
def generateRaw (transitions : TransitionMap) (cfg : GenConfig)
    (rng : Nat → ℚ) (i0 : Nat) (mrand : Nat → ℚ) (j0 : Nat) :
    Level × Nat × Nat :=
  let struct0 := generateStructure transitions cfg.width cfg.height rng i0
  let i1 := i0 + generateStructureDraws cfg.width cfg.height
  let repaired := postProcessStructure struct0 mrand j0
  let placed := placeEntities repaired.1 cfg.goldCount cfg.enemyCount rng i1
  (placed.1, placed.2, repaired.2)

/-- Result record of the orchestrator, `GenerationResult` (the wall-clock
`generationTimeMs` field is not modelled; `level`/`validation` are
`Option` because the source initializes its best-candidate variables to
`null`). -/
structure GenerationResult where
  level : Option Level
  validation : Option ValidationResult
  attempts : Nat
  fullySolvable : Bool
deriving DecidableEq

/-- Data of one orchestrator attempt: the generated level, its basic
validation, its full-solvability flag, its score
(`reachableGold.length − 10×unreachableGold.length − issues.length`,
plus 50 when fully solvable), and the stream indices after the attempt. -/
structure AttemptData where
  level : Level
  validation : ValidationResult
  fullySolvable : Bool
  score : Int
  inext : Nat
  jnext : Nat
deriving DecidableEq

/-- One iteration of the orchestrator loop body: generate, validate,
score (full solvability is only computed when basic validation holds, as
in the source). -/
def runAttempt (transitions : TransitionMap) (cfg : GenConfig)
    (rng mrand : Nat → ℚ) (i j : Nat) : AttemptData :=
  let raw := generateRaw transitions cfg rng i mrand j
  let validation := validateLevel raw.1
  let score0 : Int := (validation.reachableGold.length : Int) -
    (validation.unreachableGold.length : Int) * 10 - (validation.issues.length : Int)
  let fullySolvable := if validation.valid then isFullySolvable raw.1 else false
  let score := if fullySolvable then score0 + 50 else score0
  ⟨raw.1, validation, fullySolvable, score, raw.2.1, raw.2.2⟩

/-- Success criterion of the loop: `valid` alone, or
`valid && fullySolvable` when a full solve is required. -/
def attemptSuccess (requireFullSolve : Bool) (a : AttemptData) : Bool :=
  if requireFullSolve then a.validation.valid && a.fullySolvable
  else a.validation.valid

/-- Running best-candidate state of the orchestrator (`bestLevel`,
`bestValidation`, `bestScore`, `bestFullySolvable`; a `none` score is the
initial `-Infinity`). -/
structure BestState where
  level : Option Level
  validation : Option ValidationResult
  score : Option Int
  fullySolvable : Bool
deriving DecidableEq

/-- Strict comparison against the running best score
(`score > bestScore`, with `-Infinity` as the initial best). -/
def scoreBeats (s : Int) : Option Int → Bool
  | none => true
  | some b => b < s

/-- Best-candidate update of one attempt. -/
def updateBest (best : BestState) (a : AttemptData) : BestState :=
  if scoreBeats a.score best.score then
    ⟨some a.level, some a.validation, some a.score, a.fullySolvable⟩
  else best

/-- Orchestrator loop, the `while (attempts < maxAttempts)` body of
`generate`: each attempt updates the running best, returns immediately on
the success criterion, and after the budget returns the best candidate
with its (possibly failing) validation. -/
def genLoop (transitions : TransitionMap) (cfg : GenConfig)
    (rng mrand : Nat → ℚ) (requireFullSolve : Bool) :
    Nat → Nat → Nat → Nat → BestState → GenerationResult
  | 0, attempts, _, _, best => ⟨best.level, best.validation, attempts, best.fullySolvable⟩
  | fuel + 1, attempts, i, j, best =>
    let a := runAttempt transitions cfg rng mrand i j
    let best' := updateBest best a
    if attemptSuccess requireFullSolve a then
      ⟨some a.level, some a.validation, attempts + 1, a.fullySolvable⟩
    else
      genLoop transitions cfg rng mrand requireFullSolve fuel (attempts + 1)
        a.inext a.jnext best'

/-- Orchestrator, `LodeRunnerLevelGenerator.generate`. -/
def generate (transitions : TransitionMap) (cfg : GenConfig) (maxAttempts : Nat)
    (rng : Nat → ℚ) (i0 : Nat) (mrand : Nat → ℚ) (j0 : Nat)
    (requireFullSolve : Bool) : GenerationResult :=
  genLoop transitions cfg rng mrand requireFullSolve maxAttempts 0 i0 j0
    ⟨none, none, none, false⟩

/-- The sequence of attempts the orchestrator performs from given stream
indices: each attempt resumes the streams where the previous one
stopped. -/
def attemptsFrom (transitions : TransitionMap) (cfg : GenConfig)
    (rng mrand : Nat → ℚ) : Nat → Nat → Nat → List AttemptData
  | _, _, 0 => []
  | i, j, n + 1 =>
    let a := runAttempt transitions cfg rng mrand i j
    a :: attemptsFrom transitions cfg rng mrand a.inext a.jnext n

/-- First attempt meeting the success criterion, with its 1-based
attempt number. -/
def firstSuccess (requireFullSolve : Bool) : List AttemptData → Option (Nat × AttemptData)
  | [] => none
  | a :: rest =>
    if attemptSuccess requireFullSolve a then some (1, a)
    else (firstSuccess requireFullSolve rest).map (fun r => (r.1 + 1, r.2))

/-- Best candidate of a list of attempts under strict score improvement
(earliest maximal score wins), starting from a given best state. -/
def bestOf (best : BestState) : List AttemptData → BestState
  | [] => best
  | a :: rest => bestOf (updateBest best a) rest

/-- Orchestrator contract as the claim words it: the result is the first
attempt whose validation meets the success criterion, and otherwise the
best-scored candidate over all `maxAttempts` attempts, annotated with
that candidate's validation.  This definition follows the claim/spec
text, to be compared with `generate`. -/
def generateFirstSuccessElseBest (transitions : TransitionMap) (cfg : GenConfig)
    (maxAttempts : Nat) (rng : Nat → ℚ) (i0 : Nat) (mrand : Nat → ℚ) (j0 : Nat)
    (requireFullSolve : Bool) : GenerationResult :=
  let attempts := attemptsFrom transitions cfg rng mrand i0 j0 maxAttempts
  match firstSuccess requireFullSolve attempts with
  | some ka => ⟨some ka.2.level, some ka.2.validation, ka.1, ka.2.fullySolvable⟩
  | none =>
    let b := bestOf ⟨none, none, none, false⟩ attempts
    ⟨b.level, b.validation, maxAttempts, b.fullySolvable⟩

/-!  State-passing embedding of the reachability engine.

The searches receive the level as a mutable JS array.  To settle the
frame-effect claim, the three query functions are re-translated into an
explicit state-passing monad over the grid in which writes are
expressible (`writeTileM`), and it is proved that each of them leaves
the grid state unchanged.  Conditionally executed reads of the source
are hoisted before the conditionals here (reading is idempotent, so this
does not change any result or any write behaviour). -/

/-- Computation over a mutable level: returns a value and the new grid
state. -/
def LevelM (α : Type) : Type := Level → α × Level

/-- Pure value, no state change. -/
def pureM {α : Type} (a : α) : LevelM α := fun s => (a, s)

/-- Sequencing of state-passing computations. -/
def bindM {α β : Type} (m : LevelM α) (k : α → LevelM β) : LevelM β :=
  fun s =>
    let r := m s
    k r.1 r.2

/-- Bounds-checked cell read (`getTile`) as a state operation. -/
def readTileM (x y : Int) : LevelM (Option Tile) := fun s => (getTile s x y, s)

/-- Bounds-checked cell write (`setTile`) as a state operation: the
mutation the frame-effect claim asserts never happens in the three query
functions. -/
def writeTileM (x y : Int) (t : Tile) : LevelM Unit := fun s => ((), setTile s x y t)

/-- Row count read (`level.length`). -/
def heightM : LevelM Nat := fun s => (s.length, s)

/-- Width read (`level[0]?.length || 0`). -/
def widthM : LevelM Nat := fun s => (levelWidth s, s)

/-- Row length read (`level[y].length`). -/
def rowLenM (yn : Nat) : LevelM Nat := fun s => (((s.get? yn).map List.length).getD 0, s)

/-- A computation is read-only when it returns the grid unchanged. -/
def preservesLevel {α : Type} (m : LevelM α) : Prop := ∀ s, (m s).2 = s

/-- The ground-support test over the state monad. -/
def hasGroundSupportM (x y : Int) : LevelM Bool :=
  bindM (readTileM x (y + 1)) fun below =>
  bindM (readTileM x y) fun current =>
  pureM (
    if current = some Tile.ladder ∨ current = some Tile.rope then true
    else if (below.map Tile.ground).getD false then true
    else if below = some Tile.ladder then true
    else false)

/-- The passability test over the state monad. -/
def isPassableM (x y : Int) (dug : List Pos) : LevelM Bool :=
  bindM (readTileM x y) fun o =>
  pureM (match o with
    | none => false
    | some tile => if (⟨x, y⟩ : Pos) ∈ dug then true else tile.passable)

/-- The dig test over the state monad. -/
def canDigM (x y : Int) : LevelM Bool :=
  bindM (readTileM x y) fun o => pureM (decide (o = some Tile.brick))

/-- The falling scan over the state monad. -/
def fallScanM (x : Int) (dug : List Pos) : Int → Nat → LevelM (List Move)
  | _, 0 => pureM []
  | landY, fuel + 1 =>
    bindM heightM fun h =>
    if landY < (h : Int) then
      bindM (isPassableM x landY dug) fun pass =>
      if ¬ pass = true then pureM [⟨x, landY - 1, none⟩]
      else
        bindM (readTileM x landY) fun below =>
        if below = some Tile.ladder ∨ below = some Tile.rope then
          pureM [⟨x, landY, none⟩]
        else fallScanM x dug (landY + 1) fuel
    else pureM []

/-- The move generator over the state monad. -/
def getValidMovesM (x y : Int) (dug : List Pos) : LevelM (List Move) :=
  bindM (readTileM x y) fun current =>
  bindM heightM fun hn =>
  bindM widthM fun wn =>
  bindM (hasGroundSupportM x y) fun hasSupport =>
  let height := (hn : Int)
  let width := (wn : Int)
  let onClimbable := current = some Tile.ladder ∨ current = some Tile.rope
  if ¬ hasSupport = true ∧ ¬ onClimbable then
    fallScanM x dug (y + 1) (height - (y + 1)).toNat
  else
    bindM (isPassableM (x - 1) y dug) fun passL =>
    bindM (isPassableM (x + 1) y dug) fun passR =>
    bindM (isPassableM x (y - 1) dug) fun passU =>
    bindM (isPassableM x (y + 1) dug) fun passD =>
    bindM (readTileM x (y + 1)) fun below =>
    bindM (canDigM (x - 1) (y + 1)) fun digL =>
    bindM (canDigM (x + 1) (y + 1)) fun digR =>
    pureM (
      (if 0 < x ∧ passL = true then [⟨x - 1, y, none⟩] else []) ++
      (if x < width - 1 ∧ passR = true then [⟨x + 1, y, none⟩] else []) ++
      (if current = some Tile.ladder ∧ 0 < y ∧ passU = true then [⟨x, y - 1, none⟩] else []) ++
      (if y < height - 1 then
        (if below = some Tile.ladder ∨ (⟨x, y + 1⟩ : Pos) ∈ dug then [⟨x, y + 1, none⟩]
        else if current = some Tile.ladder ∧ passD = true then [⟨x, y + 1, none⟩]
        else [])
       else []) ++
      (if hasSupport = true ∧ 0 < x then
        (if y + 1 < height ∧ digL = true ∧ ¬ (⟨x - 1, y + 1⟩ : Pos) ∈ dug then
          [⟨x - 1, y, some ⟨x - 1, y + 1⟩⟩] else [])
       else []) ++
      (if hasSupport = true ∧ x < width - 1 then
        (if y + 1 < height ∧ digR = true ∧ ¬ (⟨x + 1, y + 1⟩ : Pos) ∈ dug then
          [⟨x + 1, y, some ⟨x + 1, y + 1⟩⟩] else [])
       else []) ++ [])

/-- The BFS worker over the state monad. -/
def bfsAuxM : Nat → List ReachState → List Pos → List Pos → LevelM (List Pos)
  | 0, _, _, reachable => pureM reachable
  | _ + 1, [], _, reachable => pureM reachable
  | fuel + 1, st :: queue, visited, reachable =>
    let key := reachKey st
    if key ∈ visited then bfsAuxM fuel queue visited reachable
    else
      let visited' := key :: visited
      let reachable' := reachable ++ [key]
      bindM (getValidMovesM st.x st.y st.dug) fun moves =>
      let queue' := queue ++ moves.filterMap (fun m =>
        if (⟨m.x, m.y⟩ : Pos) ∈ visited' then none
        else some (⟨m.x, m.y, addDug st.dug m.dig⟩ : ReachState))
      bfsAuxM fuel queue' visited' reachable'

/-- `getReachablePositions` over the state monad. -/
def getReachablePositionsM (startX startY : Int) (maxIterations : Nat := 50000) :
    LevelM (List Pos) :=
  bfsAuxM maxIterations [⟨startX, startY, []⟩] [] []

/-- One row of the tile scan over the state monad. -/
def findTilesRowM (tile : Tile) (yn : Nat) : LevelM (List Pos) :=
  bindM (rowLenM yn) fun w =>
  (List.range w).foldl (fun acc xn =>
    bindM acc fun ps =>
    bindM (readTileM (xn : Int) (yn : Int)) fun o =>
    pureM (if o = some tile then ps ++ [(⟨(xn : Int), (yn : Int)⟩ : Pos)] else ps))
    (pureM [])

/-- The tile scan `findTiles` over the state monad. -/
def findTilesM (tile : Tile) : LevelM (List Pos) :=
  bindM heightM fun h =>
  (List.range h).foldl (fun acc yn =>
    bindM acc fun ps =>
    bindM (findTilesRowM tile yn) fun qs =>
    pureM (ps ++ qs)) (pureM [])

/-- `validateLevel` over the state monad. -/
def validateLevelM : LevelM ValidationResult :=
  bindM (findTilesM Tile.gold) fun goldPositions =>
  bindM (findTilesM Tile.spawn) fun spawns =>
  match spawns.head? with
  | none =>
    pureM ⟨false, [], goldPositions, none, ["No spawn position (M) found in level"]⟩
  | some spawn =>
    bindM (hasGroundSupportM spawn.x spawn.y) fun support =>
    bindM (readTileM spawn.x spawn.y) fun spawnTile =>
    bindM (getReachablePositionsM spawn.x spawn.y 50000) fun reachable =>
    pureM (
      let supportIssues : List String :=
        if ¬ support = true ∧
           ¬ (spawnTile = some Tile.ladder ∨ spawnTile = some Tile.rope) then
          [spawnIssue spawn]
        else []
      let goldCountIssues : List String :=
        if goldPositions = [] then ["No gold (G) found in level"] else []
      let reachableGold := goldPositions.filter (fun g => g ∈ reachable)
      let unreachableGold := goldPositions.filter (fun g => ¬ g ∈ reachable)
      let issues := supportIssues ++ goldCountIssues ++ unreachableGold.map goldIssue
      ⟨unreachableGold.isEmpty && issues.isEmpty, reachableGold, unreachableGold,
        some spawn, issues⟩)

/-- `findEscapePositions` over the state monad. -/
def findEscapePositionsM : LevelM (List Pos) :=
  bindM widthM fun w =>
  bindM ((List.range w).foldl (fun acc xn =>
    bindM acc fun ps =>
    bindM (readTileM (xn : Int) 0) fun top =>
    bindM (readTileM (xn : Int) 1) fun second =>
    pureM (
      if top = some Tile.ladder then ps ++ [(⟨(xn : Int), 0⟩ : Pos)]
      else if top = some Tile.empty ∧ second = some Tile.ladder then
        ps ++ [(⟨(xn : Int), 0⟩ : Pos)]
      else ps)) (pureM [])) fun primary =>
  if primary = [] then
    (List.range w).foldl (fun acc xn =>
      bindM acc fun ps =>
      bindM (readTileM (xn : Int) 0) fun top =>
      pureM (
        if top = some Tile.empty ∨ top = some Tile.rope ∨ top = some Tile.ladder then
          ps ++ [(⟨(xn : Int), 0⟩ : Pos)]
        else ps)) (pureM [])
  else pureM primary

/-- The A* loop over the state monad. -/
def solveLoopM (goldPositions escapePositions : List Pos)
    (allGoldMask maxIterations : Nat) :
    Nat → List FullNode → List (Int × Int × Nat) → LevelM SolveResult
  | 0, _, _ => pureM ⟨false, some (exceededMsg maxIterations)⟩
  | _ + 1, [], _ => pureM ⟨false, some noPathMsg⟩
  | fuel + 1, o :: os, visited =>
    match sortByF (o :: os) with
    | [] => pureM ⟨false, some noPathMsg⟩
    | current :: rest =>
      if current.collectedGold = allGoldMask ∧
         (⟨current.x, current.y⟩ : Pos) ∈ escapePositions then
        pureM ⟨true, none⟩
      else if stateKey current ∈ visited then
        solveLoopM goldPositions escapePositions allGoldMask maxIterations
          fuel rest visited
      else
        let visited' := stateKey current :: visited
        bindM (getValidMovesM current.x current.y current.dug) fun moves =>
        let newNodes := moves.filterMap (fun m =>
          let newCollected :=
            match goldIndexAt goldPositions m.x m.y with
            | some idx => current.collectedGold ||| 2 ^ idx
            | none => current.collectedGold
          if ((m.x, m.y, newCollected) : Int × Int × Nat) ∈ visited' then none
          else
            let gCost := current.g + 1
            let hCost := fullHeuristic m.x m.y newCollected goldPositions escapePositions
            some ⟨m.x, m.y, newCollected, addDug current.dug m.dig, gCost, hCost,
              gCost + hCost⟩)
        solveLoopM goldPositions escapePositions allGoldMask maxIterations
          fuel (rest ++ newNodes) visited'

/-- `canSolveLevel` over the state monad. -/
def canSolveLevelM (maxIterations : Nat := 100000) : LevelM SolveResult :=
  bindM (findTilesM Tile.spawn) fun spawns =>
  match spawns.head? with
  | none => pureM ⟨false, some ("No spawn position")⟩
  | some spawn =>
    bindM (findTilesM Tile.gold) fun goldPositions =>
    if goldPositions.length = 0 then pureM ⟨false, some ("No gold in level")⟩
    else if 16 < goldPositions.length then
      bindM validateLevelM fun result =>
      pureM ⟨result.valid,
        if result.valid then none else some ("Too many gold pieces for full solve check")⟩
    else
      bindM findEscapePositionsM fun escapePositions =>
      if escapePositions = [] then
        pureM ⟨false, some ("No escape positions at top of level")⟩
      else
        let allGoldMask := 2 ^ goldPositions.length - 1
        let startH := fullHeuristic spawn.x spawn.y 0 goldPositions escapePositions
        let startCollected :=
          match goldIndexAt goldPositions spawn.x spawn.y with
          | some idx => 2 ^ idx
          | none => 0
        let startNode : FullNode :=
          ⟨spawn.x, spawn.y, startCollected, [], 0, startH, startH⟩
        solveLoopM goldPositions escapePositions allGoldMask maxIterations
          maxIterations [startNode] []

/-!  Auxiliary notions and concrete grids used by the claim theorems. -/

/-- Rectangular shape predicate: `h` rows, each of width `w`. -/
def levelShape (l : Level) (w h : Nat) : Prop :=
  l.length = h ∧ ∀ r ∈ l, r.length = w

/-- Movement class of a cell content: the movement model distinguishes
cells only up to this classification (Empty, Gold, Enemy and Spawn share
identical movement-relevant flags). -/
inductive TClass where
  | blank
  | brickC
  | solidC
  | ladderC
  | ropeC
  | oob
deriving DecidableEq

/-- Classification of an optional tile. -/
def tclass : Option Tile → TClass
  | none => TClass.oob
  | some Tile.empty => TClass.blank
  | some Tile.gold => TClass.blank
  | some Tile.enemy => TClass.blank
  | some Tile.spawn => TClass.blank
  | some Tile.brick => TClass.brickC
  | some Tile.solid => TClass.solidC
  | some Tile.ladder => TClass.ladderC
  | some Tile.rope => TClass.ropeC

/-- Two grids are move-equivalent when they have the same shape and every
cell has the same movement class. -/
def classEq (g1 g2 : Level) : Prop :=
  g1.length = g2.length ∧
  (∀ yn : Nat, (g1.get? yn).map List.length = (g2.get? yn).map List.length) ∧
  (∀ x y : Int, tclass (getTile g1 x y) = tclass (getTile g2 x y))

/-- Decidable test that a grid contains no entity tiles (gold, enemy,
spawn) — the state structures fed to `placeEntities` by the pipeline. -/
def entityFreeB (l : Level) : Bool :=
  l.all (fun row => row.all (fun t =>
    decide (¬ (t = Tile.gold ∨ t = Tile.enemy ∨ t = Tile.spawn))))

/-- The all-zero rng stream used by concrete checks. -/
def zeroRng : Nat → ℚ := fun _ => 0

/-- Concrete grid: a spawn with no ground support that falls onto the
only gold, next to an escape ladder column.
Rows: `.M.` / `#..` / `#G.` / `BBB`. -/
def floatSpawnGrid : Level :=
  [[Tile.empty, Tile.spawn, Tile.empty],
   [Tile.ladder, Tile.empty, Tile.empty],
   [Tile.ladder, Tile.gold, Tile.empty],
   [Tile.solid, Tile.solid, Tile.solid]]

/-- Concrete grid in which a chamber is only reachable by digging a brick
and falling through the hole.
Rows: `....` / `M.b.` / `Bb.b` / `BBBB`. -/
def dugKeyGrid : Level :=
  [[Tile.empty, Tile.empty, Tile.empty, Tile.empty],
   [Tile.spawn, Tile.empty, Tile.brick, Tile.empty],
   [Tile.solid, Tile.brick, Tile.empty, Tile.brick],
   [Tile.solid, Tile.solid, Tile.solid, Tile.solid]]

/-- Concrete grid: a single floating ladder at the top of an empty
one-cell-wide column over a solid floor. -/
def ladderColumnGrid : Level :=
  [[Tile.ladder], [Tile.empty], [Tile.empty], [Tile.empty], [Tile.solid]]

/-- Concrete one-row, left-right-asymmetric training level `b.`. -/
def mirrorCorpusLevel : Level :=
  [[Tile.brick, Tile.empty]]

/-- Concrete entity-free structure with a solid floor, for the placement
witness. -/
def floor3Grid : Level :=
  [[Tile.empty, Tile.empty, Tile.empty],
   [Tile.empty, Tile.empty, Tile.empty],
   [Tile.solid, Tile.solid, Tile.solid]]

/-- Concrete grid with a spawn and 17 gold pieces on one supported row
(more than the 16-gold bitmask bound). -/
def seventeenGoldGrid : Level :=
  [Tile.empty :: List.replicate 17 Tile.empty,
   Tile.spawn :: List.replicate 17 Tile.gold,
   Tile.solid :: List.replicate 17 Tile.solid]

/-- Concrete grid with no spawn tile. -/
def noSpawnGrid : Level :=
  [[Tile.empty]]

/-- Concrete grid with a spawn but no gold. -/
def noGoldGrid : Level :=
  [[Tile.spawn], [Tile.solid]]

/-- Concrete grid with spawn and gold but a fully solid top row, so no
escape position qualifies. -/
def noEscapeGrid : Level :=
  [[Tile.solid, Tile.solid],
   [Tile.spawn, Tile.gold],
   [Tile.solid, Tile.solid]]

/-!  Read-only lemmas for the state-passing embedding. -/

theorem preservesLevel_pureM {α : Type} (a : α) : preservesLevel (pureM a) :=
  fun _ => rfl

theorem preservesLevel_bindM {α β : Type} {m : LevelM α} {k : α → LevelM β}
    (hm : preservesLevel m) (hk : ∀ a, preservesLevel (k a)) :
    preservesLevel (bindM m k) := by
  intro s
  show (k (m s).1 (m s).2).2 = s
  rw [hk (m s).1 (m s).2, hm s]

theorem preservesLevel_readTileM (x y : Int) : preservesLevel (readTileM x y) :=
  fun _ => rfl

theorem preservesLevel_heightM : preservesLevel heightM :=
  fun _ => rfl

theorem preservesLevel_widthM : preservesLevel widthM :=
  fun _ => rfl

theorem preservesLevel_rowLenM (yn : Nat) : preservesLevel (rowLenM yn) :=
  fun _ => rfl

theorem preservesLevel_ite {α : Type} (c : Prop) [Decidable c] {m1 m2 : LevelM α}
    (h1 : preservesLevel m1) (h2 : preservesLevel m2) :
    preservesLevel (if c then m1 else m2) := by
  by_cases h : c
  · rwa [if_pos h]
  · rwa [if_neg h]

theorem preservesLevel_foldBind {β γ : Type} (l : List γ) (step : LevelM β → γ → LevelM β)
    (hstep : ∀ m c, preservesLevel m → preservesLevel (step m c)) :
    ∀ init : LevelM β, preservesLevel init → preservesLevel (l.foldl step init) := by
  induction l with
  | nil => intro init h; exact h
  | cons c cs ih => intro init h; exact ih _ (hstep _ _ h)

theorem preservesLevel_hasGroundSupportM (x y : Int) :
    preservesLevel (hasGroundSupportM x y) :=
  preservesLevel_bindM (preservesLevel_readTileM _ _) (fun _ =>
    preservesLevel_bindM (preservesLevel_readTileM _ _) (fun _ =>
      preservesLevel_pureM _))

theorem preservesLevel_isPassableM (x y : Int) (dug : List Pos) :
    preservesLevel (isPassableM x y dug) :=
  preservesLevel_bindM (preservesLevel_readTileM _ _) (fun _ =>
    preservesLevel_pureM _)

theorem preservesLevel_canDigM (x y : Int) : preservesLevel (canDigM x y) :=
  preservesLevel_bindM (preservesLevel_readTileM _ _) (fun _ =>
    preservesLevel_pureM _)

theorem preservesLevel_fallScanM (x : Int) (dug : List Pos) :
    ∀ (fuel : Nat) (landY : Int), preservesLevel (fallScanM x dug landY fuel) := by
  intro fuel
  induction fuel with
  | zero => intro landY; exact preservesLevel_pureM _
  | succ n ih =>
    intro landY
    unfold fallScanM
    exact preservesLevel_bindM preservesLevel_heightM (fun h =>
      preservesLevel_ite _
        (preservesLevel_bindM (preservesLevel_isPassableM _ _ _) (fun pass =>
          preservesLevel_ite _ (preservesLevel_pureM _)
            (preservesLevel_bindM (preservesLevel_readTileM _ _) (fun below =>
              preservesLevel_ite _ (preservesLevel_pureM _) (ih _)))))
        (preservesLevel_pureM _))

theorem preservesLevel_getValidMovesM (x y : Int) (dug : List Pos) :
    preservesLevel (getValidMovesM x y dug) := by
  unfold getValidMovesM
  exact preservesLevel_bindM (preservesLevel_readTileM _ _) (fun current =>
    preservesLevel_bindM preservesLevel_heightM (fun hn =>
      preservesLevel_bindM preservesLevel_widthM (fun wn =>
        preservesLevel_bindM (preservesLevel_hasGroundSupportM _ _) (fun hasSupport =>
          preservesLevel_ite _ (preservesLevel_fallScanM _ _ _ _)
            (preservesLevel_bindM (preservesLevel_isPassableM _ _ _) (fun passL =>
              preservesLevel_bindM (preservesLevel_isPassableM _ _ _) (fun passR =>
                preservesLevel_bindM (preservesLevel_isPassableM _ _ _) (fun passU =>
                  preservesLevel_bindM (preservesLevel_isPassableM _ _ _) (fun passD =>
                    preservesLevel_bindM (preservesLevel_readTileM _ _) (fun below =>
                      preservesLevel_bindM (preservesLevel_canDigM _ _) (fun digL =>
                        preservesLevel_bindM (preservesLevel_canDigM _ _) (fun digR =>
                          preservesLevel_pureM _))))))))))))

theorem preservesLevel_bfsAuxM :
    ∀ (fuel : Nat) (queue : List ReachState) (visited reachable : List Pos),
      preservesLevel (bfsAuxM fuel queue visited reachable) := by
  intro fuel
  induction fuel with
  | zero => intro queue v r; exact preservesLevel_pureM _
  | succ n ih =>
    intro queue v r
    match queue with
    | [] => exact preservesLevel_pureM _
    | st :: rest =>
      unfold bfsAuxM
      exact preservesLevel_ite _ (ih _ _ _)
        (preservesLevel_bindM (preservesLevel_getValidMovesM _ _ _) (fun moves =>
          ih _ _ _))

theorem preservesLevel_getReachablePositionsM (startX startY : Int) (maxIterations : Nat) :
    preservesLevel (getReachablePositionsM startX startY maxIterations) :=
  preservesLevel_bfsAuxM _ _ _ _

theorem preservesLevel_findTilesRowM (tile : Tile) (yn : Nat) :
    preservesLevel (findTilesRowM tile yn) := by
  unfold findTilesRowM
  refine preservesLevel_bindM (preservesLevel_rowLenM _) (fun w => ?_)
  refine preservesLevel_foldBind _ _ (fun m c hm => ?_) _ (preservesLevel_pureM _)
  exact preservesLevel_bindM hm (fun ps =>
    preservesLevel_bindM (preservesLevel_readTileM _ _) (fun o =>
      preservesLevel_pureM _))

theorem preservesLevel_findTilesM (tile : Tile) : preservesLevel (findTilesM tile) := by
  unfold findTilesM
  refine preservesLevel_bindM preservesLevel_heightM (fun h => ?_)
  refine preservesLevel_foldBind _ _ (fun m c hm => ?_) _ (preservesLevel_pureM _)
  exact preservesLevel_bindM hm (fun ps =>
    preservesLevel_bindM (preservesLevel_findTilesRowM _ _) (fun qs =>
      preservesLevel_pureM _))

theorem preservesLevel_validateLevelM : preservesLevel validateLevelM := by
  unfold validateLevelM
  refine preservesLevel_bindM (preservesLevel_findTilesM _) (fun gp => ?_)
  refine preservesLevel_bindM (preservesLevel_findTilesM _) (fun spawns => ?_)
  cases spawns.head? with
  | none => exact preservesLevel_pureM _
  | some spawn =>
    refine preservesLevel_bindM (preservesLevel_hasGroundSupportM _ _) (fun support => ?_)
    refine preservesLevel_bindM (preservesLevel_readTileM _ _) (fun st => ?_)
    refine preservesLevel_bindM (preservesLevel_getReachablePositionsM _ _ _) (fun reach => ?_)
    exact preservesLevel_pureM _

theorem preservesLevel_findEscapePositionsM : preservesLevel findEscapePositionsM := by
  unfold findEscapePositionsM
  refine preservesLevel_bindM preservesLevel_widthM (fun w => ?_)
  refine preservesLevel_bindM ?_ (fun primary => ?_)
  · refine preservesLevel_foldBind _ _ (fun m c hm => ?_) _ (preservesLevel_pureM _)
    exact preservesLevel_bindM hm (fun ps =>
      preservesLevel_bindM (preservesLevel_readTileM _ _) (fun top =>
        preservesLevel_bindM (preservesLevel_readTileM _ _) (fun second =>
          preservesLevel_pureM _)))
  · refine preservesLevel_ite _ ?_ (preservesLevel_pureM _)
    refine preservesLevel_foldBind _ _ (fun m c hm => ?_) _ (preservesLevel_pureM _)
    exact preservesLevel_bindM hm (fun ps =>
      preservesLevel_bindM (preservesLevel_readTileM _ _) (fun top =>
        preservesLevel_pureM _))

theorem preservesLevel_solveLoopM (goldPositions escapePositions : List Pos)
    (allGoldMask maxIterations : Nat) :
    ∀ (fuel : Nat) (openSet : List FullNode) (visited : List (Int × Int × Nat)),
      preservesLevel (solveLoopM goldPositions escapePositions allGoldMask
        maxIterations fuel openSet visited) := by
  intro fuel
  induction fuel with
  | zero => intro o v; exact preservesLevel_pureM _
  | succ n ih =>
    intro openSet v
    match openSet with
    | [] => exact preservesLevel_pureM _
    | o :: os =>
      unfold solveLoopM
      cases sortByF (o :: os) with
      | nil => exact preservesLevel_pureM _
      | cons current rest =>
        refine preservesLevel_ite _ (preservesLevel_pureM _) ?_
        refine preservesLevel_ite _ (ih _ _) ?_
        exact preservesLevel_bindM (preservesLevel_getValidMovesM _ _ _) (fun moves =>
          ih _ _)

theorem preservesLevel_canSolveLevelM (maxIterations : Nat) :
    preservesLevel (canSolveLevelM maxIterations) := by
  unfold canSolveLevelM
  refine preservesLevel_bindM (preservesLevel_findTilesM _) (fun spawns => ?_)
  cases spawns.head? with
  | none => exact preservesLevel_pureM _
  | some spawn =>
    refine preservesLevel_bindM (preservesLevel_findTilesM _) (fun gp => ?_)
    refine preservesLevel_ite _ (preservesLevel_pureM _) ?_
    refine preservesLevel_ite _ ?_ ?_
    · exact preservesLevel_bindM preservesLevel_validateLevelM (fun result =>
        preservesLevel_pureM _)
    · refine preservesLevel_bindM preservesLevel_findEscapePositionsM (fun esc => ?_)
      refine preservesLevel_ite _ (preservesLevel_pureM _) ?_
      exact preservesLevel_solveLoopM _ _ _ _ _ _ _

/-!  Basic grid lemmas shared by the claim proofs. -/

theorem length_setTile (l : Level) (x y : Int) (t : Tile) :
    (setTile l x y t).length = l.length := by
  unfold setTile
  split
  · cases h : l.get? y.toNat with
    | none => rfl
    | some row =>
      simp only [h]
      split
      · exact List.length_set ..
      · rfl
  · rfl

theorem getTile_setTile_ne (l : Level) (x y x' y' : Int) (t : Tile)
    (h : ¬ (x' = x ∧ y' = y)) :
    getTile (setTile l x y t) x' y' = getTile l x' y' := by
  unfold setTile
  split
  case isFalse => rfl
  case isTrue hb =>
    cases hrow : l.get? y.toNat with
    | none => rfl
    | some row =>
      simp only [hrow]
      split
      case isFalse => rfl
      case isTrue hx =>
        have hlt : y.toNat < l.length := by
          by_contra hcon
          rw [List.get?_eq_none.mpr (by omega)] at hrow
          exact Option.noConfusion hrow
        unfold getTile
        by_cases hyy : y'.toNat = y.toNat
        · simp only [hyy, List.get?_set_eq_of_lt _ hlt, hrow, List.length_set]
          by_cases hneg : y' < 0
          · rw [if_pos (Or.inl hneg), if_pos (Or.inl hneg)]
          · have hy0 : 0 ≤ y := hb.1
            have hy' : y' = y := by omega
            have hx' : ¬ x' = x := fun hc => h ⟨hc, hy'⟩
            by_cases hxneg : x' < 0
            · rw [if_pos (Or.inr (Or.inl hxneg)), if_pos (Or.inr (Or.inl hxneg))]
            · by_cases hxbig : (row.length : Int) ≤ x'
              · rw [if_pos (Or.inr (Or.inr hxbig)), if_pos (Or.inr (Or.inr hxbig))]
              · rw [if_neg (by push_neg; exact ⟨by omega, by omega, by omega⟩),
                  if_neg (by push_neg; exact ⟨by omega, by omega, by omega⟩)]
                exact List.get?_set_ne _ _ (by omega)
        · rw [List.get?_set_ne _ _ (fun hc => hyy hc.symm)]

theorem getTile_setTile_self (l : Level) (x y : Int) (t : Tile)
    (h : (getTile l x y).isSome) :
    getTile (setTile l x y t) x y = some t := by
  unfold getTile at h
  cases hrow : l.get? y.toNat with
  | none => rw [hrow] at h; simp at h
  | some row =>
    rw [hrow] at h
    by_cases hg : y < 0 ∨ x < 0 ∨ (row.length : Int) ≤ x
    · exfalso
      have h2 : (if y < 0 ∨ x < 0 ∨ (row.length : Int) ≤ x then (none : Option Tile)
          else row.get? x.toNat).isSome = true := h
      rw [if_pos hg] at h2
      simp at h2
    · push_neg at hg
      have hlt : y.toNat < l.length := by
        by_contra hcon
        rw [List.get?_eq_none.mpr (by omega)] at hrow
        exact Option.noConfusion hrow
      unfold setTile
      rw [if_pos ⟨hg.1, hg.2.1⟩, hrow]
      show getTile (if x < (row.length : Int) then List.set l y.toNat (row.set x.toNat t)
        else l) x y = some t
      rw [if_pos hg.2.2]
      unfold getTile
      rw [List.get?_set_eq_of_lt _ hlt]
      show (if y < 0 ∨ x < 0 ∨ ((row.set x.toNat t).length : Int) ≤ x then (none : Option Tile)
        else (row.set x.toNat t).get? x.toNat) = some t
      rw [if_neg (by push_neg; exact ⟨hg.1, hg.2.1, by rw [List.length_set]; exact hg.2.2⟩)]
      exact List.get?_set_eq_of_lt _ (by omega)

/-- Claim C10: the three query functions of the reachability engine are
read-only on their input grid — in the state-passing embedding, in which
writes are expressible via `writeTileM`, `getReachablePositionsM`,
`validateLevelM` and `canSolveLevelM` return the grid unchanged for
every level and every parameter choice (digging is simulated only in the
per-state dug-sets, never written into the grid). -/
theorem queries_read_only :
    ∀ (level : Level) (startX startY : Int) (bfsIterations solveIterations : Nat),
      (getReachablePositionsM startX startY bfsIterations level).2 = level ∧
      (validateLevelM level).2 = level ∧
      (canSolveLevelM solveIterations level).2 = level :=
  fun level startX startY bfsIterations solveIterations =>
    ⟨preservesLevel_getReachablePositionsM startX startY bfsIterations level,
     preservesLevel_validateLevelM level,
     preservesLevel_canSolveLevelM solveIterations level⟩

/-!  Shape lemmas and floor-invariant lemmas for `generateStructure`. -/

theorem levelShape_createEmptyLevel (w h : Nat) :
    levelShape (createEmptyLevel w h) w h := by
  constructor
  · exact List.length_replicate ..
  · intro r hr
    rw [List.eq_of_mem_replicate hr]
    exact List.length_replicate ..

theorem setTile_cases (l : Level) (x y : Int) (t : Tile) :
    setTile l x y t = l ∨
    ∃ row, l.get? y.toNat = some row ∧
      setTile l x y t = l.set y.toNat (row.set x.toNat t) := by
  unfold setTile
  by_cases hb : 0 ≤ y ∧ 0 ≤ x
  · rw [if_pos hb]
    cases hrow : l.get? y.toNat with
    | none => exact Or.inl rfl
    | some row =>
      by_cases hx : x < (row.length : Int)
      · refine Or.inr ⟨row, rfl, ?_⟩
        show (if x < (row.length : Int) then List.set l y.toNat (row.set x.toNat t)
          else l) = _
        rw [if_pos hx]
      · refine Or.inl ?_
        show (if x < (row.length : Int) then List.set l y.toNat (row.set x.toNat t)
          else l) = l
        rw [if_neg hx]
  · rw [if_neg hb]
    exact Or.inl rfl

theorem levelShape_setTile {l : Level} {w h : Nat} (x y : Int) (t : Tile)
    (hs : levelShape l w h) : levelShape (setTile l x y t) w h := by
  rcases setTile_cases l x y t with heq | ⟨row, hrow, heq⟩
  · rw [heq]; exact hs
  · rw [heq]
    refine ⟨by rw [List.length_set]; exact hs.1, ?_⟩
    intro r hr
    rcases List.mem_or_eq_of_mem_set hr with hmem | hr2
    · exact hs.2 r hmem
    · rw [hr2, List.length_set]
      exact hs.2 row (List.get?_mem hrow)

theorem levelShape_foldl {γ : Type} {w h : Nat} (cs : List γ) (step : Level → γ → Level)
    (hstep : ∀ l c, levelShape l w h → levelShape (step l c) w h) :
    ∀ l : Level, levelShape l w h → levelShape (cs.foldl step l) w h := by
  induction cs with
  | nil => intro l hl; exact hl
  | cons c cs ih => intro l hl; exact ih _ (hstep _ _ hl)

theorem getTile_isSome_of_shape {l : Level} {w h : Nat} {x y : Int}
    (hs : levelShape l w h) (hx0 : 0 ≤ x) (hx : x < (w : Int))
    (hy0 : 0 ≤ y) (hy : y < (h : Int)) : (getTile l x y).isSome := by
  have hlen := hs.1
  unfold getTile
  cases hrow : l.get? y.toNat with
  | none =>
    exfalso
    rw [List.get?_eq_none] at hrow
    omega
  | some row =>
    have hw : row.length = w := hs.2 row (List.get?_mem hrow)
    show (if y < 0 ∨ x < 0 ∨ ((row.length : Int) ≤ x) then (none : Option Tile)
      else row.get? x.toNat).isSome = true
    rw [if_neg (by push_neg; exact ⟨hy0, hx0, by rw [hw]; omega⟩)]
    have hxlt : x.toNat < row.length := by omega
    rw [List.get?_eq_get hxlt]
    rfl

/-- Writing the bottom row solid makes every already-written column read
back Solid. -/
theorem solidFloor_getTile {w h : Nat} (hh : 1 ≤ h) :
    ∀ (k : Nat) (l : Level), levelShape l w h → k ≤ w →
      ∀ x : Int, 0 ≤ x → x < (k : Int) →
        getTile ((List.range k).foldl
          (fun l (xn : Nat) => setTile l (xn : Int) ((h : Int) - 1) Tile.solid) l)
          x ((h : Int) - 1) = some Tile.solid := by
  intro k
  induction k with
  | zero => intro l _ _ x hx0 hxk; exfalso; omega
  | succ n ih =>
    intro l hl hk x hx0 hxk
    rw [List.range_succ, List.foldl_append]
    simp only [List.foldl_cons, List.foldl_nil]
    have hshape : levelShape ((List.range n).foldl
        (fun l (xn : Nat) => setTile l (xn : Int) ((h : Int) - 1) Tile.solid) l) w h :=
      levelShape_foldl _ _ (fun l c hl => levelShape_setTile _ _ _ hl) l hl
    by_cases hx : x = (n : Int)
    · rw [hx]
      exact getTile_setTile_self _ _ _ _
        (getTile_isSome_of_shape hshape (by omega) (by omega) (by omega) (by omega))
    · rw [getTile_setTile_ne _ _ _ _ _ _ (fun hc => hx hc.1)]
      exact ih l hl (by omega) x hx0 (by omega)

/-- One sampling write never touches another row. -/
theorem getTile_sampleCell_ne (transitions : TransitionMap) (rng : Nat → ℚ)
    (i0 width yn : Nat) (l : Level) (xn : Nat) (x y' : Int) (h : y' ≠ (yn : Int)) :
    getTile (sampleCell transitions rng i0 width yn l xn) x y' = getTile l x y' := by
  unfold sampleCell
  exact getTile_setTile_ne _ _ _ _ _ _ (fun hc => h hc.2)

/-- A whole sampled row never touches another row. -/
theorem getTile_sampleRow_ne (transitions : TransitionMap) (rng : Nat → ℚ)
    (i0 width yn : Nat) (xs : List Nat) (x y' : Int) (h : y' ≠ (yn : Int)) :
    ∀ l : Level,
      getTile (xs.foldl (sampleCell transitions rng i0 width yn) l) x y' =
        getTile l x y' := by
  induction xs with
  | nil => intro l; rfl
  | cons c cs ih =>
    intro l
    rw [List.foldl_cons, ih, getTile_sampleCell_ne _ _ _ _ _ _ _ _ _ h]

/-- Claim C3: for every width ≥ 1 and height ≥ 1 and every rng stream,
every cell of the last row of `generateStructure` is Solid; the sampling
loop only writes rows 0 through height−2, so the floor is independent of
the rng (the statement quantifies over all streams and start indices). -/
theorem generateStructure_floor_solid (transitions : TransitionMap)
    (width height : Nat) (rng : Nat → ℚ) (i0 : Nat) (x : Int)
    (hh : 1 ≤ height) (hx0 : 0 ≤ x) (hx : x < (width : Int)) :
    getTile (generateStructure transitions width height rng i0)
      x ((height : Int) - 1) = some Tile.solid := by
  unfold generateStructure
  have hfloor : getTile (solidFloor height (createEmptyLevel width height) width)
      x ((height : Int) - 1) = some Tile.solid := by
    unfold solidFloor
    exact solidFloor_getTile hh width _ (levelShape_createEmptyLevel width height)
      (le_refl _) x hx0 hx
  have houter : ∀ (ys : List Nat) (l : Level), (∀ yn ∈ ys, yn < height - 1) →
      getTile (ys.foldl (fun l (yn : Nat) =>
        (List.range width).foldl (sampleCell transitions rng i0 width yn) l) l)
        x ((height : Int) - 1) = getTile l x ((height : Int) - 1) := by
    intro ys
    induction ys with
    | nil => intro l _; rfl
    | cons c cs ih =>
      intro l hmem
      rw [List.foldl_cons, ih _ (fun yn hyn => hmem yn (List.mem_cons_of_mem _ hyn)),
        getTile_sampleRow_ne]
      have := hmem c (List.mem_cons_self _ _)
      omega
  rw [houter _ _ (fun yn hyn => List.mem_range.mp hyn)]
  exact hfloor

/-!  Characterization of the falling branch of `getValidMoves`. -/

theorem fallScan_length_le_one (level : Level) (x : Int) (dug : List Pos) :
    ∀ (fuel : Nat) (landY : Int), (fallScan level x dug landY fuel).length ≤ 1 := by
  intro fuel
  induction fuel with
  | zero => intro landY; simp [fallScan]
  | succ n ih =>
    intro landY
    unfold fallScan
    split
    · split
      · simp
      · split
        · simp
        · exact ih (landY + 1)
    · simp

theorem fallScan_spec (level : Level) (x : Int) (dug : List Pos) :
    ∀ (fuel : Nat) (landY : Int) (m : Move), m ∈ fallScan level x dug landY fuel →
      m.x = x ∧ m.dig = none ∧ landY - 1 ≤ m.y ∧
      ((isPassable level x (m.y + 1) dug = false ∧
          (∀ j : Int, landY ≤ j → j ≤ m.y →
            isPassable level x j dug = true ∧ getTile level x j ≠ some Tile.ladder ∧
              getTile level x j ≠ some Tile.rope)) ∨
        ((getTile level x m.y = some Tile.ladder ∨ getTile level x m.y = some Tile.rope) ∧
          isPassable level x m.y dug = true ∧
          (∀ j : Int, landY ≤ j → j < m.y →
            isPassable level x j dug = true ∧ getTile level x j ≠ some Tile.ladder ∧
              getTile level x j ≠ some Tile.rope))) := by
  intro fuel
  induction fuel with
  | zero => intro landY m hm; simp [fallScan] at hm
  | succ n ih =>
    intro landY m hm
    unfold fallScan at hm
    split at hm
    case isFalse => simp at hm
    case isTrue hheight =>
      split at hm
      case isTrue hpass =>
        rw [List.mem_singleton] at hm
        subst hm
        refine ⟨rfl, rfl, by show landY - 1 ≤ landY - 1; omega, Or.inl ⟨?_, ?_⟩⟩
        · show isPassable level x (landY - 1 + 1) dug = false
          rw [show landY - 1 + 1 = landY by omega]
          exact Bool.not_eq_true _ ▸ (by simpa using hpass)
        · intro j hj1 hj2
          exfalso
          simp at hj2
          omega
      case isFalse hpass =>
        split at hm
        case isTrue hgrab =>
          rw [List.mem_singleton] at hm
          subst hm
          refine ⟨rfl, rfl, by show landY - 1 ≤ landY; omega, Or.inr ⟨hgrab, ?_, ?_⟩⟩
          · simpa using hpass
          · intro j hj1 hj2
            exfalso
            simp at hj2
            omega
        case isFalse hgrab =>
          rcases ih (landY + 1) m hm with ⟨hx, hdig, hy, hrest⟩
          push_neg at hgrab
          have hpassY : isPassable level x landY dug = true := by simpa using hpass
          refine ⟨hx, hdig, by omega, ?_⟩
          rcases hrest with ⟨hstop, hint⟩ | ⟨hgrab2, hpass2, hint⟩
          · refine Or.inl ⟨hstop, ?_⟩
            intro j hj1 hj2
            by_cases hj : j = landY
            · exact hj ▸ ⟨hpassY, hgrab.1, hgrab.2⟩
            · exact hint j (by omega) hj2
          · refine Or.inr ⟨hgrab2, hpass2, ?_⟩
            intro j hj1 hj2
            by_cases hj : j = landY
            · exact hj ▸ ⟨hpassY, hgrab.1, hgrab.2⟩
            · exact hint j (by omega) hj2

/-- The falling branch of `getValidMoves` is taken exactly when the
position has no ground support and is not itself on a ladder or rope. -/
theorem getValidMoves_falling (level : Level) (x y : Int) (dug : List Pos)
    (hsup : hasGroundSupport level x y = false)
    (hlad : getTile level x y ≠ some Tile.ladder)
    (hrope : getTile level x y ≠ some Tile.rope) :
    getValidMoves level x y dug = fallScan level x dug (y + 1) (fallFuel level y) := by
  unfold getValidMoves
  rw [if_pos]
  constructor
  · rw [hsup]
    simp
  · intro hc
    rcases hc with h | h
    · exact hlad h
    · exact hrope h

/-- Claim C7: from a position with no ground support whose own tile is
not Ladder or Rope, `getValidMoves` returns at most one move, and every
returned move is a fall in the same column with no dig: either a landing
one row above the first non-passable cell below (all strictly intermediate
cells passable and non-climbable), or a grab at the first Ladder/Rope
cell below.  No horizontal step, climb or dig move is returned. -/
theorem falling_moves_only_fall (level : Level) (x y : Int) (dug : List Pos)
    (hsup : hasGroundSupport level x y = false)
    (hlad : getTile level x y ≠ some Tile.ladder)
    (hrope : getTile level x y ≠ some Tile.rope) :
    (getValidMoves level x y dug).length ≤ 1 ∧
    ∀ m ∈ getValidMoves level x y dug,
      m.x = x ∧ m.dig = none ∧ y ≤ m.y ∧
      ((isPassable level x (m.y + 1) dug = false ∧
          (∀ j : Int, y < j → j ≤ m.y →
            isPassable level x j dug = true ∧ getTile level x j ≠ some Tile.ladder ∧
              getTile level x j ≠ some Tile.rope)) ∨
        ((getTile level x m.y = some Tile.ladder ∨ getTile level x m.y = some Tile.rope) ∧
          isPassable level x m.y dug = true ∧
          (∀ j : Int, y < j → j < m.y →
            isPassable level x j dug = true ∧ getTile level x j ≠ some Tile.ladder ∧
              getTile level x j ≠ some Tile.rope))) := by
  rw [getValidMoves_falling level x y dug hsup hlad hrope]
  refine ⟨fallScan_length_le_one level x dug _ _, ?_⟩
  intro m hm
  rcases fallScan_spec level x dug _ _ m hm with ⟨hx, hdig, hy, hrest⟩
  refine ⟨hx, hdig, by omega, ?_⟩
  rcases hrest with ⟨hstop, hint⟩ | ⟨hgrab, hpass, hint⟩
  · exact Or.inl ⟨hstop, fun j hj1 hj2 => hint j (by omega) hj2⟩
  · exact Or.inr ⟨hgrab, hpass, fun j hj1 hj2 => hint j (by omega) hj2⟩

/-!  Branch lemmas for `canSolveLevel`. -/

theorem canSolveLevel_no_spawn (level : Level) (maxIterations : Nat)
    (h : getSpawnPosition level = none) :
    canSolveLevel level maxIterations = ⟨false, some ("No spawn position")⟩ := by
  unfold canSolveLevel
  rw [h]

theorem canSolveLevel_no_gold (level : Level) (maxIterations : Nat) (sp : Pos)
    (hs : getSpawnPosition level = some sp) (hg : getGoldPositions level = []) :
    canSolveLevel level maxIterations = ⟨false, some ("No gold in level")⟩ := by
  unfold canSolveLevel
  rw [hs]
  dsimp only
  rw [if_pos (by rw [hg]; rfl)]

theorem validateLevel_no_spawn_invalid (level : Level)
    (h : getSpawnPosition level = none) : (validateLevel level).valid = false := by
  unfold validateLevel
  rw [h]

theorem canSolveLevel_gt16 (level : Level) (maxIterations : Nat)
    (h16 : 16 < (getGoldPositions level).length) :
    (canSolveLevel level maxIterations).solvable = (validateLevel level).valid := by
  unfold canSolveLevel
  cases hs : getSpawnPosition level with
  | none =>
    rw [validateLevel_no_spawn_invalid level hs]
  | some sp =>
    dsimp only
    rw [if_neg (by omega), if_pos h16]

theorem canSolveLevel_no_escape (level : Level) (maxIterations : Nat) (sp : Pos)
    (hs : getSpawnPosition level = some sp)
    (hg : (getGoldPositions level).length ≠ 0)
    (h16 : ¬ 16 < (getGoldPositions level).length)
    (he : findEscapePositions level = []) :
    canSolveLevel level maxIterations =
      ⟨false, some ("No escape positions at top of level")⟩ := by
  unfold canSolveLevel
  rw [hs]
  dsimp only
  rw [if_neg hg, if_neg h16, if_pos he]

theorem canSolveLevel_budget_zero (level : Level) (sp : Pos)
    (hs : getSpawnPosition level = some sp)
    (hg : (getGoldPositions level).length ≠ 0)
    (h16 : ¬ 16 < (getGoldPositions level).length)
    (he : findEscapePositions level ≠ []) :
    canSolveLevel level 0 = ⟨false, some (exceededMsg 0)⟩ := by
  unfold canSolveLevel
  rw [hs]
  dsimp only
  rw [if_neg hg, if_neg h16, if_neg he]
  rfl

/-- Claim C8: `canSolveLevel` is total and returns structured failure
data: missing spawn, missing gold and missing escape positions each give
an immediate not-solvable result with its reason string; more than 16
gold pieces short-circuits to the basic validator's verdict instead of
the bitmask search; and an exhausted iteration budget gives a
not-solvable result with the distinct exhaustion reason (shown at the
zero budget, where the loop may not run at all). -/
theorem canSolveLevel_structured_failures :
    ∀ (level : Level) (maxIterations : Nat),
      (getSpawnPosition level = none →
        canSolveLevel level maxIterations = ⟨false, some ("No spawn position")⟩) ∧
      (∀ sp, getSpawnPosition level = some sp → getGoldPositions level = [] →
        canSolveLevel level maxIterations = ⟨false, some ("No gold in level")⟩) ∧
      (16 < (getGoldPositions level).length →
        (canSolveLevel level maxIterations).solvable = (validateLevel level).valid) ∧
      (∀ sp, getSpawnPosition level = some sp →
        (getGoldPositions level).length ≠ 0 →
        ¬ 16 < (getGoldPositions level).length →
        findEscapePositions level = [] →
        canSolveLevel level maxIterations =
          ⟨false, some ("No escape positions at top of level")⟩) ∧
      (∀ sp, getSpawnPosition level = some sp →
        (getGoldPositions level).length ≠ 0 →
        ¬ 16 < (getGoldPositions level).length →
        findEscapePositions level ≠ [] →
        canSolveLevel level 0 = ⟨false, some (exceededMsg 0)⟩) :=
  fun level maxIterations =>
    ⟨canSolveLevel_no_spawn level maxIterations,
     fun sp hs hg => canSolveLevel_no_gold level maxIterations sp hs hg,
     canSolveLevel_gt16 level maxIterations,
     fun sp hs hg h16 he => canSolveLevel_no_escape level maxIterations sp hs hg h16 he,
     fun sp hs hg h16 he => canSolveLevel_budget_zero level sp hs hg h16 he⟩

/-- Witness for C8: each branch of the contract discharged at a concrete
grid. -/
theorem canSolveLevel_structured_failures_witness :
    (canSolveLevel noSpawnGrid 7 = ⟨false, some ("No spawn position")⟩) ∧
    (canSolveLevel noGoldGrid 7 = ⟨false, some ("No gold in level")⟩) ∧
    ((canSolveLevel seventeenGoldGrid 7).solvable = (validateLevel seventeenGoldGrid).valid) ∧
    (canSolveLevel noEscapeGrid 7 =
      ⟨false, some ("No escape positions at top of level")⟩) ∧
    (canSolveLevel floatSpawnGrid 0 = ⟨false, some (exceededMsg 0)⟩) :=
  ⟨(canSolveLevel_structured_failures noSpawnGrid 7).1 (by decide),
   (canSolveLevel_structured_failures noGoldGrid 7).2.1 ⟨0, 0⟩ (by decide) (by decide),
   (canSolveLevel_structured_failures seventeenGoldGrid 7).2.2.1 (by decide),
   (canSolveLevel_structured_failures noEscapeGrid 7).2.2.2.1 ⟨0, 1⟩ (by decide)
     (by decide) (by decide) (by decide),
   (canSolveLevel_structured_failures floatSpawnGrid 0).2.2.2.2 ⟨1, 0⟩ (by decide)
     (by decide) (by decide) (by decide)⟩

/-- Claim C2 (corrected), counterexample: the grid `floatSpawnGrid` is
fully solvable (the unsupported spawn falls onto the gold and climbs the
escape ladder) yet `validateLevel` reports it invalid because of the
spawn-ground-support issue. -/
theorem full_solve_not_basic_valid_cex :
    isFullySolvable floatSpawnGrid = true ∧
    (validateLevel floatSpawnGrid).valid = false := by
  constructor
  · decide
  · decide

/-- Claim C2 (amended): the implication from full solvability to basic
validity does hold on the short-circuit branch — for every grid with more
than 16 gold pieces, `isFullySolvable` is exactly the basic validator's
verdict, so `isFullySolvable = true` implies `validateLevel(...).valid`. -/
theorem full_solve_implies_valid_gt16 (level : Level)
    (h16 : 16 < (getGoldPositions level).length)
    (hfull : isFullySolvable level = true) :
    (validateLevel level).valid = true := by
  unfold isFullySolvable at hfull
  exact (canSolveLevel_gt16 level 100000 h16).symm.trans hfull

/-- Witness for the amended C2 at a concrete 17-gold grid. -/
theorem full_solve_implies_valid_gt16_witness :
    16 < (getGoldPositions seventeenGoldGrid).length ∧
    (validateLevel seventeenGoldGrid).valid = true :=
  ⟨by decide, full_solve_implies_valid_gt16 seventeenGoldGrid (by decide) (by decide)⟩

/-- Claim C4 (corrected), counterexample: on `dugKeyGrid` the cell (2,2)
is reachable when the visited identity is (position, dug-set), as the
spec words it, but `getReachablePositions` — whose visited key is the
position alone — prunes the dug-set-carrying re-arrival of cell (1,1)
and never reaches the chamber. -/
theorem visited_key_ignores_dug_cex :
    ¬ ((⟨2, 2⟩ : Pos) ∈ getReachablePositions dugKeyGrid 0 1) ∧
    ((⟨2, 2⟩ : Pos) ∈ getReachablePositionsDugKey dugKeyGrid 0 1) := by
  constructor
  · decide
  · decide

/-- Claim C4 (amended): the visited-set identities the code uses ignore
the dug-set entirely — the BFS key is the position alone and the full
solver's key is (position, gold-bitmask); a queued state whose position
key is already visited is skipped regardless of the dug-set it carries. -/
theorem visited_key_position_only :
    (∀ s t : ReachState, s.x = t.x → s.y = t.y → reachKey s = reachKey t) ∧
    (∀ s t : FullNode, s.x = t.x → s.y = t.y →
      s.collectedGold = t.collectedGold → stateKey s = stateKey t) ∧
    (∀ (level : Level) (fuel : Nat) (st : ReachState) (queue : List ReachState)
        (visited reachable : List Pos), reachKey st ∈ visited →
      bfsAux level (fuel + 1) (st :: queue) visited reachable =
        bfsAux level fuel queue visited reachable) := by
  refine ⟨?_, ?_, ?_⟩
  · intro s t hx hy
    unfold reachKey
    rw [hx, hy]
  · intro s t hx hy hc
    unfold stateKey
    rw [hx, hy, hc]
  · intro level fuel st queue visited reachable h
    conv_lhs => unfold bfsAux
    dsimp only
    rw [if_pos h]

/-- Witness for the amended C4: the same position under two different
dug-sets produces the same visited key, and the BFS skips an
already-visited position carrying a fresh dug-set. -/
theorem visited_key_position_only_witness :
    reachKey ⟨5, 7, []⟩ = reachKey ⟨5, 7, [⟨1, 2⟩]⟩ ∧
    stateKey ⟨5, 7, 3, [], 0, 0, 0⟩ = stateKey ⟨5, 7, 3, [⟨1, 2⟩], 9, 9, 9⟩ ∧
    bfsAux dugKeyGrid 3 [⟨0, 1, [⟨9, 9⟩]⟩] [⟨0, 1⟩] [] =
      bfsAux dugKeyGrid 2 [] [⟨0, 1⟩] [] :=
  ⟨visited_key_position_only.1 _ _ rfl rfl,
   visited_key_position_only.2.1 _ _ rfl rfl rfl,
   visited_key_position_only.2.2 dugKeyGrid 2 ⟨0, 1, [⟨9, 9⟩]⟩ [] [⟨0, 1⟩] []
     (by decide)⟩

/-- Claim C6 (corrected), counterexample: on a one-column grid with a
single floating ladder on top (and an `Math.random` stream that always
extends), `postProcessStructure` produces a ladder all the way down —
the extensions written at rows 1 and 2 are re-examined and extended
further in the same call — while the no-re-examination reading of the
spec stops after the single extension at row 1. -/
theorem repair_no_reexam_cex :
    (postProcessStructure ladderColumnGrid zeroRng 0).1 =
      [[Tile.ladder], [Tile.ladder], [Tile.ladder], [Tile.ladder], [Tile.solid]] ∧
    (postProcessStructureNoReexam ladderColumnGrid zeroRng 0).1 =
      [[Tile.ladder], [Tile.ladder], [Tile.empty], [Tile.empty], [Tile.solid]] := by
  constructor
  · with_unfolding_all decide
  · with_unfolding_all decide

/-- Claim C6 (amended): the repair pass is one row-major sweep over a
mutable copy that it also reads, so a ladder extension written during
the sweep is re-examined when the sweep reaches its row and can be
extended further in the same call: on `ladderColumnGrid` the cells
(0,2) and (0,3) — Empty in the input, below the single floating ladder —
come out as Ladder. -/
theorem repair_extension_reexamined :
    getTile ladderColumnGrid 0 1 = some Tile.empty ∧
    getTile ladderColumnGrid 0 2 = some Tile.empty ∧
    getTile ladderColumnGrid 0 3 = some Tile.empty ∧
    getTile (postProcessStructure ladderColumnGrid zeroRng 0).1 0 2 = some Tile.ladder ∧
    getTile (postProcessStructure ladderColumnGrid zeroRng 0).1 0 3 = some Tile.ladder := by
  refine ⟨?_, ?_, ?_, ?_, ?_⟩ <;> with_unfolding_all decide

/-!  Normalization lemmas for the transition-table trainer. -/

theorem foldl_invariant {α β : Type} (P : α → Prop) (step : α → β → α) (l : List β)
    (hstep : ∀ a b, P a → P (step a b)) : ∀ a, P a → P (l.foldl step a) := by
  induction l with
  | nil => intro a h; exact h
  | cons b bs ih => intro a h; exact ih _ (hstep a b h)

theorem alistGet_alistSet {κ ν : Type} [DecidableEq κ] (k k' : κ) (v : ν) :
    ∀ m : List (κ × ν),
      alistGet k' (alistSet k v m) = if k' = k then some v else alistGet k' m := by
  intro m
  induction m with
  | nil =>
    show (if k = k' then some v else alistGet k' []) = if k' = k then some v else none
    by_cases h : k' = k
    · rw [if_pos h.symm, if_pos h]
    · rw [if_neg (fun hc => h hc.symm), if_neg h]
      rfl
  | cons e rest ih =>
    obtain ⟨ek, ev⟩ := e
    show alistGet k' (if ek = k then (k, v) :: rest else (ek, ev) :: alistSet k v rest) = _
    by_cases hek : ek = k
    · rw [if_pos hek]
      show (if k = k' then some v else alistGet k' rest) = _
      by_cases h : k' = k
      · rw [if_pos h.symm, if_pos h]
      · rw [if_neg (fun hc => h hc.symm), if_neg h]
        show _ = if ek = k' then some ev else alistGet k' rest
        rw [if_neg (by rw [hek]; exact fun hc => h hc.symm)]
    · rw [if_neg hek]
      show (if ek = k' then some ev else alistGet k' (alistSet k v rest)) = _
      rw [ih]
      by_cases h2 : ek = k'
      · rw [if_pos h2, if_neg (fun hc => hek (h2.trans hc))]
        show _ = if ek = k' then some ev else alistGet k' rest
        rw [if_pos h2]
      · rw [if_neg h2]
        by_cases h3 : k' = k
        · rw [if_pos h3, if_pos h3]
        · rw [if_neg h3, if_neg h3]
          show _ = if ek = k' then some ev else alistGet k' rest
          rw [if_neg h2]

/-- Positivity invariant of the frequency-count maps built by `train`:
every stored tile map is nonempty with all counts at least 1. -/
def goodCounts (cm : CountsMap) : Prop :=
  ∀ key m, alistGet key cm = some m → m ≠ [] ∧ ∀ e ∈ m, 1 ≤ e.2

theorem alistSet_ne_nil {κ ν : Type} [DecidableEq κ] (k : κ) (v : ν) :
    ∀ m : List (κ × ν), alistSet k v m ≠ [] := by
  intro m
  cases m with
  | nil => exact fun h => List.noConfusion h
  | cons e rest =>
    obtain ⟨ek, ev⟩ := e
    show (if ek = k then (k, v) :: rest else (ek, ev) :: alistSet k v rest) ≠ []
    by_cases h : ek = k
    · rw [if_pos h]; exact fun h => List.noConfusion h
    · rw [if_neg h]; exact fun h => List.noConfusion h

theorem alistSet_mem {κ ν : Type} [DecidableEq κ] (k : κ) (v : ν) :
    ∀ (m : List (κ × ν)) (e : κ × ν), e ∈ alistSet k v m → e ∈ m ∨ e = (k, v) := by
  intro m
  induction m with
  | nil =>
    intro e he
    rcases List.mem_singleton.mp he with h
    exact Or.inr h
  | cons p rest ih =>
    obtain ⟨pk, pv⟩ := p
    intro e he
    by_cases h : pk = k
    · rw [show alistSet k v ((pk, pv) :: rest) = (k, v) :: rest from by
        show (if pk = k then _ else _) = _; rw [if_pos h]] at he
      rcases List.mem_cons.mp he with h1 | h1
      · exact Or.inr h1
      · exact Or.inl (List.mem_cons_of_mem _ h1)
    · rw [show alistSet k v ((pk, pv) :: rest) = (pk, pv) :: alistSet k v rest from by
        show (if pk = k then _ else _) = _; rw [if_neg h]] at he
      rcases List.mem_cons.mp he with h1 | h1
      · exact Or.inl (h1 ▸ List.mem_cons_self _ _)
      · rcases ih e h1 with h2 | h2
        · exact Or.inl (List.mem_cons_of_mem _ h2)
        · exact Or.inr h2

theorem bumpTile_good (t : Tile) (m : List (Tile × Nat)) (hm : ∀ e ∈ m, 1 ≤ e.2) :
    bumpTile t m ≠ [] ∧ ∀ e ∈ bumpTile t m, 1 ≤ e.2 := by
  refine ⟨alistSet_ne_nil _ _ _, ?_⟩
  intro e he
  rcases alistSet_mem _ _ _ _ he with h | h
  · exact hm e h
  · rw [h]
    exact Nat.le_add_left 1 _

theorem goodCounts_cellStep (key : ContextKey) (tile : Tile) (cm : CountsMap)
    (h : goodCounts cm) :
    goodCounts (alistSet key (bumpTile tile ((alistGet key cm).getD [])) cm) := by
  intro k m hm
  rw [alistGet_alistSet] at hm
  by_cases hk : k = key
  · rw [if_pos hk] at hm
    have hbase : ∀ e ∈ (alistGet key cm).getD [], 1 ≤ e.2 := by
      cases hc : alistGet key cm with
      | none => intro e he; simp at he
      | some m0 => exact (h key m0 hc).2
    rcases bumpTile_good tile _ hbase with ⟨h1, h2⟩
    exact Option.some.inj hm ▸ ⟨h1, h2⟩
  · rw [if_neg hk] at hm
    exact h k m hm

theorem goodCounts_trainCountsLevel (level : Level) :
    ∀ acc : CountsMap, goodCounts acc → goodCounts (trainCountsLevel acc level) := by
  intro acc hacc
  unfold trainCountsLevel
  refine foldl_invariant goodCounts _ _ ?_ acc hacc
  intro a yn ha
  refine foldl_invariant goodCounts _ _ ?_ a ha
  intro a2 xn ha2
  exact goodCounts_cellStep _ _ _ ha2

theorem goodCounts_trainCounts (levels : List Level) :
    goodCounts (trainCounts levels) := by
  unfold trainCounts
  refine foldl_invariant goodCounts _ _ ?_ [] ?_
  · intro a l ha
    exact goodCounts_trainCountsLevel l a ha
  · intro key m hm
    exact absurd hm (by simp [alistGet])

theorem sum_map_div (T : ℚ) : ∀ l : List ℚ, (l.map (fun q => q / T)).sum = l.sum / T := by
  intro l
  induction l with
  | nil => simp
  | cons q qs ih => simp [ih, add_div]

theorem sum_map_snd_cast : ∀ m : List (Tile × Nat),
    (m.map (fun e => ((e.2 : Nat) : ℚ))).sum = (((m.map (fun e => e.2)).sum : Nat) : ℚ) := by
  intro m
  induction m with
  | nil => simp
  | cons e rest ih =>
    rw [List.map_cons, List.sum_cons, ih, List.map_cons, List.sum_cons]
    push_cast
    ring

theorem counts_total_pos (m : List (Tile × Nat)) (hne : m ≠ []) (hpos : ∀ e ∈ m, 1 ≤ e.2) :
    1 ≤ (m.map (fun e => e.2)).sum := by
  cases m with
  | nil => exact absurd rfl hne
  | cons e rest =>
    have h1 : 1 ≤ e.2 := hpos e (List.mem_cons_self _ _)
    simp only [List.map_cons, List.sum_cons]
    omega

theorem normalizeRow_sum (m : List (Tile × Nat)) (hne : m ≠ []) (hpos : ∀ e ∈ m, 1 ≤ e.2) :
    ((normalizeRow m).map (fun e => e.2)).sum = 1 := by
  unfold normalizeRow
  dsimp only
  have htot := counts_total_pos m hne hpos
  have hT : (((m.map (fun e => e.2)).sum : Nat) : ℚ) ≠ 0 := by
    rw [Nat.cast_ne_zero]
    omega
  rw [List.map_map]
  have hstep : ∀ l : List (Tile × Nat),
      (l.map ((fun e : Tile × ℚ => e.2) ∘ (fun e : Tile × Nat =>
        (e.1, (e.2 : ℚ) / (((m.map (fun e => e.2)).sum : Nat) : ℚ))))).sum =
      (l.map (fun e => ((e.2 : Nat) : ℚ))).sum /
        (((m.map (fun e => e.2)).sum : Nat) : ℚ) := by
    intro l
    induction l with
    | nil => simp
    | cons e rest ih =>
      simp only [List.map_cons, List.sum_cons, ih, Function.comp]
      rw [add_div]
  rw [hstep, sum_map_snd_cast]
  exact div_self hT

theorem alistGet_map {κ ν ν' : Type} [DecidableEq κ] (f : ν → ν') (k : κ) :
    ∀ m : List (κ × ν),
      alistGet k (m.map (fun e => (e.1, f e.2))) = (alistGet k m).map f := by
  intro m
  induction m with
  | nil => rfl
  | cons e rest ih =>
    obtain ⟨ek, ev⟩ := e
    show (if ek = k then some (f ev) else alistGet k (rest.map _)) = _
    by_cases h : ek = k
    · rw [if_pos h]
      show _ = (if ek = k then some ev else alistGet k rest).map f
      rw [if_pos h]
      rfl
    · rw [if_neg h, ih]
      show _ = (if ek = k then some ev else alistGet k rest).map f
      rw [if_neg h]

/-- Claim C5 (corrected), counterexample: on the one-level asymmetric
corpus `[b.]`, `MarkovLevelGenerator.train` does not count a mirrored
duplicate — the out-of-bounds context key maps to Brick with probability
1, while the claim's wording (counting the mirrored duplicate as well, as
the training script's `augmentLevels` does before invoking a trainer)
yields Brick and Empty with probability 1/2 each. -/
theorem train_no_mirror_cex :
    alistGet ((none : Option Tile), (none : Option Tile), (none : Option Tile))
      (train [mirrorCorpusLevel]) = some [(Tile.brick, 1)] ∧
    alistGet ((none : Option Tile), (none : Option Tile), (none : Option Tile))
      (trainWithMirrors [mirrorCorpusLevel]) =
      some [(Tile.brick, mkRat 1 2), (Tile.empty, mkRat 1 2)] := by
  constructor
  · with_unfolding_all decide
  · with_unfolding_all decide

/-- Claim C5 (amended): `train` counts context-key/tile frequencies over
exactly the corpus it is given (entity-stripped) and normalizes each
key's counts to probabilities summing to 1; the horizontal-mirror
augmentation is performed by the separate training script
(`augmentLevels`) before a trainer is invoked, not inside `train`.  As a
pure function of its argument, `train` trivially yields identical tables
on identical corpora. -/
theorem train_normalizes_per_key :
    ∀ (levels : List Level) (key : ContextKey) (dist : List (Tile × ℚ)),
      alistGet key (train levels) = some dist →
      dist ≠ [] ∧ (dist.map (fun e => e.2)).sum = 1 := by
  intro levels key dist h
  unfold train at h
  rw [show ((trainCounts levels).map (fun e => (e.1, normalizeRow e.2))) =
      ((trainCounts levels).map (fun e => (e.1, normalizeRow e.2))) from rfl,
    alistGet_map] at h
  cases hc : alistGet key (trainCounts levels) with
  | none => rw [hc] at h; exact absurd h (by simp)
  | some m =>
    rw [hc] at h
    have hd : normalizeRow m = dist := Option.some.inj h
    obtain ⟨hne, hpos⟩ := goodCounts_trainCounts levels key m hc
    constructor
    · rw [← hd]
      unfold normalizeRow
      intro hnil
      exact hne (List.map_eq_nil.mp hnil)
    · rw [← hd]
      exact normalizeRow_sum m hne hpos

/-- Witness for the amended C5 at the concrete one-level corpus. -/
theorem train_normalizes_per_key_witness :
    alistGet ((none : Option Tile), (none : Option Tile), (none : Option Tile))
      (train [mirrorCorpusLevel]) = some [(Tile.brick, (1 : ℚ))] ∧
    (([(Tile.brick, (1 : ℚ))] : List (Tile × ℚ)) ≠ [] ∧
      (([(Tile.brick, (1 : ℚ))] : List (Tile × ℚ)).map (fun e => e.2)).sum = 1) :=
  ⟨by with_unfolding_all decide,
   train_normalizes_per_key [mirrorCorpusLevel]
     ((none : Option Tile), (none : Option Tile), (none : Option Tile))
     [(Tile.brick, (1 : ℚ))] (by with_unfolding_all decide)⟩

/-- Witness for C3 on a concrete 2×2 generation. -/
theorem generateStructure_floor_solid_witness :
    (1 ≤ 2 ∧ (0 : Int) ≤ 1 ∧ (1 : Int) < ((2 : Nat) : Int)) ∧
    getTile (generateStructure [] 2 2 zeroRng 0) 1 (((2 : Nat) : Int) - 1) =
      some Tile.solid :=
  ⟨⟨by omega, by omega, by omega⟩,
   generateStructure_floor_solid [] 2 2 zeroRng 0 1 (by omega) (by omega) (by omega)⟩

/-- Witness for C7 at the unsupported spawn cell of `floatSpawnGrid`. -/
theorem falling_moves_only_fall_witness :
    (hasGroundSupport floatSpawnGrid 1 0 = false ∧
      getTile floatSpawnGrid 1 0 ≠ some Tile.ladder ∧
      getTile floatSpawnGrid 1 0 ≠ some Tile.rope) ∧
    ((getValidMoves floatSpawnGrid 1 0 []).length ≤ 1 ∧
      ∀ m ∈ getValidMoves floatSpawnGrid 1 0 [],
        m.x = 1 ∧ m.dig = none ∧ 0 ≤ m.y ∧
        ((isPassable floatSpawnGrid 1 (m.y + 1) [] = false ∧
            (∀ j : Int, 0 < j → j ≤ m.y →
              isPassable floatSpawnGrid 1 j [] = true ∧
                getTile floatSpawnGrid 1 j ≠ some Tile.ladder ∧
                getTile floatSpawnGrid 1 j ≠ some Tile.rope)) ∨
          ((getTile floatSpawnGrid 1 m.y = some Tile.ladder ∨
              getTile floatSpawnGrid 1 m.y = some Tile.rope) ∧
            isPassable floatSpawnGrid 1 m.y [] = true ∧
            (∀ j : Int, 0 < j → j < m.y →
              isPassable floatSpawnGrid 1 j [] = true ∧
                getTile floatSpawnGrid 1 j ≠ some Tile.ladder ∧
                getTile floatSpawnGrid 1 j ≠ some Tile.rope)))) :=
  ⟨⟨by decide, by decide, by decide⟩,
   falling_moves_only_fall floatSpawnGrid 1 0 [] (by decide) (by decide) (by decide)⟩

/-!  Orchestrator loop characterization. -/

theorem bestOf_level_isSome (l : List AttemptData) :
    ∀ b : BestState, b.level.isSome = true → (bestOf b l).level.isSome = true := by
  induction l with
  | nil => intro b hb; exact hb
  | cons a rest ih =>
    intro b hb
    show (bestOf (updateBest b a) rest).level.isSome = true
    apply ih
    unfold updateBest
    by_cases h : scoreBeats a.score b.score = true
    · rw [if_pos h]
      rfl
    · rw [if_neg h]
      exact hb

theorem genLoop_spec (transitions : TransitionMap) (cfg : GenConfig)
    (rng mrand : Nat → ℚ) (req : Bool) :
    ∀ (fuel att i j : Nat) (best : BestState),
      genLoop transitions cfg rng mrand req fuel att i j best =
        match firstSuccess req (attemptsFrom transitions cfg rng mrand i j fuel) with
        | some ka =>
          ⟨some ka.2.level, some ka.2.validation, att + ka.1, ka.2.fullySolvable⟩
        | none =>
          let b := bestOf best (attemptsFrom transitions cfg rng mrand i j fuel)
          ⟨b.level, b.validation, att + fuel, b.fullySolvable⟩ := by
  intro fuel
  induction fuel with
  | zero =>
    intro att i j best
    show (⟨best.level, best.validation, att, best.fullySolvable⟩ : GenerationResult) = _
    simp only [attemptsFrom, firstSuccess, bestOf, Nat.add_zero]
  | succ n ih =>
    intro att i j best
    conv_lhs => unfold genLoop
    conv_rhs => rw [attemptsFrom]
    dsimp only
    by_cases hsucc : attemptSuccess req (runAttempt transitions cfg rng mrand i j) = true
    · rw [if_pos hsucc]
      simp only [firstSuccess]
      rw [if_pos hsucc]
    · rw [if_neg hsucc, ih]
      simp only [firstSuccess]
      rw [if_neg hsucc]
      cases hfs : firstSuccess req (attemptsFrom transitions cfg rng mrand
          (runAttempt transitions cfg rng mrand i j).inext
          (runAttempt transitions cfg rng mrand i j).jnext n) with
      | some ka =>
        dsimp only [Option.map]
        show (⟨some ka.2.level, some ka.2.validation, att + 1 + ka.1,
          ka.2.fullySolvable⟩ : GenerationResult) = _
        have harith : att + 1 + ka.1 = att + (ka.1 + 1) := by omega
        rw [harith]
      | none =>
        dsimp only [Option.map]
        show (⟨_, _, att + 1 + n, _⟩ : GenerationResult) = _
        have harith : att + 1 + n = att + (n + 1) := by omega
        rw [harith]
        rfl

/-- Claim C9: for every transition table, config, rng streams and finite
`maxAttempts ≥ 1`, the orchestrator's `generate` returns a result whose
level is non-null (it is total, hence never throws), and the result is
exactly: the first attempt whose validation meets the success criterion
(`valid`, or `valid` and fully solvable under `requireFullSolve`), and
otherwise the best candidate under the score
reachableGold − 10·unreachableGold − issues with the +50 full-solve
bonus (strict improvement, earliest maximum), annotated with that
candidate's possibly failing validation. -/
theorem generate_first_success_else_best (transitions : TransitionMap)
    (cfg : GenConfig) (maxAttempts : Nat) (rng : Nat → ℚ) (i0 : Nat)
    (mrand : Nat → ℚ) (j0 : Nat) (req : Bool) (hmax : 1 ≤ maxAttempts) :
    (generate transitions cfg maxAttempts rng i0 mrand j0 req).level.isSome = true ∧
    generate transitions cfg maxAttempts rng i0 mrand j0 req =
      generateFirstSuccessElseBest transitions cfg maxAttempts rng i0 mrand j0 req := by
  have hspec := genLoop_spec transitions cfg rng mrand req maxAttempts 0 i0 j0
    ⟨none, none, none, false⟩
  have heq : generate transitions cfg maxAttempts rng i0 mrand j0 req =
      generateFirstSuccessElseBest transitions cfg maxAttempts rng i0 mrand j0 req := by
    unfold generate generateFirstSuccessElseBest
    rw [hspec]
    cases hfs : firstSuccess req (attemptsFrom transitions cfg rng mrand i0 j0 maxAttempts) with
    | some ka => simp [hfs]
    | none => simp [hfs]
  refine ⟨?_, heq⟩
  rw [heq]
  unfold generateFirstSuccessElseBest
  dsimp only
  cases hfs : firstSuccess req (attemptsFrom transitions cfg rng mrand i0 j0 maxAttempts) with
  | some ka => rfl
  | none =>
    obtain ⟨m, hm⟩ : ∃ m, maxAttempts = m + 1 := ⟨maxAttempts - 1, by omega⟩
    subst hm
    show (bestOf ⟨none, none, none, false⟩
      (attemptsFrom transitions cfg rng mrand i0 j0 (m + 1))).level.isSome = true
    simp only [attemptsFrom, bestOf]
    apply bestOf_level_isSome
    rw [show (updateBest ⟨none, none, none, false⟩
      (runAttempt transitions cfg rng mrand i0 j0)).level =
      some (runAttempt transitions cfg rng mrand i0 j0).level from rfl]
    rfl

/-- Witness for C9 at a concrete configuration. -/
theorem generate_first_success_else_best_witness :
    (generate [] {} 1 zeroRng 0 zeroRng 0 false).level.isSome = true ∧
    generate [] {} 1 zeroRng 0 zeroRng 0 false =
      generateFirstSuccessElseBest [] {} 1 zeroRng 0 zeroRng 0 false :=
  generate_first_success_else_best [] {} 1 zeroRng 0 zeroRng 0 false (by omega)

/-!  Move-equivalence: the reachability engine distinguishes cells only
up to their movement class, so overwriting Empty cells with Gold or
Enemy (all in the blank class) cannot change the reachable set. -/

theorem classEq_refl (g : Level) : classEq g g :=
  ⟨rfl, fun _ => rfl, fun _ _ => rfl⟩

theorem classEq_trans {g1 g2 g3 : Level} (h12 : classEq g1 g2) (h23 : classEq g2 g3) :
    classEq g1 g3 :=
  ⟨h12.1.trans h23.1, fun yn => (h12.2.1 yn).trans (h23.2.1 yn),
   fun x y => (h12.2.2 x y).trans (h23.2.2 x y)⟩

theorem levelWidth_classEq {g1 g2 : Level} (h : classEq g1 g2) :
    levelWidth g1 = levelWidth g2 := by
  unfold levelWidth
  rw [← List.get?_zero, ← List.get?_zero, h.2.1 0]

theorem tclass_ladder : ∀ o1 o2 : Option Tile, tclass o1 = tclass o2 →
    ((o1 = some Tile.ladder) ↔ (o2 = some Tile.ladder)) := by decide

theorem tclass_rope : ∀ o1 o2 : Option Tile, tclass o1 = tclass o2 →
    ((o1 = some Tile.rope) ↔ (o2 = some Tile.rope)) := by decide

theorem tclass_brick : ∀ o1 o2 : Option Tile, tclass o1 = tclass o2 →
    ((o1 = some Tile.brick) ↔ (o2 = some Tile.brick)) := by decide

/-- Passability as a function of the raw cell content and the dug-bit
(proof helper for the congruence lemmas). -/
def passOpt : Option Tile → Bool → Bool
  | none, _ => false
  | some t, dugHit => if dugHit then true else t.passable

theorem isPassable_eq_passOpt (g : Level) (x y : Int) (dug : List Pos) :
    isPassable g x y dug = passOpt (getTile g x y) (decide ((⟨x, y⟩ : Pos) ∈ dug)) := by
  unfold isPassable passOpt
  cases getTile g x y with
  | none => rfl
  | some t =>
    by_cases hmem : (⟨x, y⟩ : Pos) ∈ dug
    · simp [hmem]
    · simp [hmem]

theorem passOpt_congr : ∀ o1 o2 : Option Tile, tclass o1 = tclass o2 →
    ∀ b : Bool, passOpt o1 b = passOpt o2 b := by decide

theorem isPassable_classEq {g1 g2 : Level} (h : classEq g1 g2) (x y : Int)
    (dug : List Pos) : isPassable g1 x y dug = isPassable g2 x y dug := by
  rw [isPassable_eq_passOpt, isPassable_eq_passOpt,
    passOpt_congr _ _ (h.2.2 x y)]

/-- Ground support as a function of the raw cell contents (proof
helper). -/
def supportOpt (below current : Option Tile) : Bool :=
  if current = some Tile.ladder ∨ current = some Tile.rope then true
  else if (below.map Tile.ground).getD false then true
  else if below = some Tile.ladder then true
  else false

theorem hasGroundSupport_eq_supportOpt (g : Level) (x y : Int) :
    hasGroundSupport g x y = supportOpt (getTile g x (y + 1)) (getTile g x y) := rfl

theorem supportOpt_congr : ∀ b1 b2 c1 c2 : Option Tile, tclass b1 = tclass b2 →
    tclass c1 = tclass c2 → supportOpt b1 c1 = supportOpt b2 c2 := by decide

theorem hasGroundSupport_classEq {g1 g2 : Level} (h : classEq g1 g2) (x y : Int) :
    hasGroundSupport g1 x y = hasGroundSupport g2 x y := by
  rw [hasGroundSupport_eq_supportOpt, hasGroundSupport_eq_supportOpt,
    supportOpt_congr _ _ _ _ (h.2.2 x (y + 1)) (h.2.2 x y)]

theorem canDig_classEq {g1 g2 : Level} (h : classEq g1 g2) (x y : Int) :
    canDig g1 x y = canDig g2 x y := by
  unfold canDig
  exact decide_eq_decide.mpr (tclass_brick _ _ (h.2.2 x y))

theorem fallScan_classEq {g1 g2 : Level} (h : classEq g1 g2) (x : Int)
    (dug : List Pos) : ∀ (fuel : Nat) (landY : Int),
    fallScan g1 x dug landY fuel = fallScan g2 x dug landY fuel := by
  intro fuel
  induction fuel with
  | zero => intro landY; rfl
  | succ n ih =>
    intro landY
    unfold fallScan
    rw [h.1, isPassable_classEq h, ih]
    simp only [tclass_ladder _ _ (h.2.2 x landY), tclass_rope _ _ (h.2.2 x landY)]

theorem getValidMoves_classEq {g1 g2 : Level} (h : classEq g1 g2) (x y : Int)
    (dug : List Pos) : getValidMoves g1 x y dug = getValidMoves g2 x y dug := by
  have hfuel : fallFuel g1 y = fallFuel g2 y := by
    unfold fallFuel
    rw [h.1]
  unfold getValidMoves
  rw [h.1, levelWidth_classEq h, hasGroundSupport_classEq h,
    fallScan_classEq h x dug _ (y + 1), hfuel]
  simp only [tclass_ladder _ _ (h.2.2 x y), tclass_rope _ _ (h.2.2 x y),
    tclass_ladder _ _ (h.2.2 x (y + 1)),
    isPassable_classEq h (x - 1) y dug, isPassable_classEq h (x + 1) y dug,
    isPassable_classEq h x (y - 1) dug, isPassable_classEq h x (y + 1) dug,
    canDig_classEq h (x - 1) (y + 1), canDig_classEq h (x + 1) (y + 1)]

theorem bfsAux_classEq {g1 g2 : Level} (h : classEq g1 g2) :
    ∀ (fuel : Nat) (queue : List ReachState) (visited reachable : List Pos),
      bfsAux g1 fuel queue visited reachable = bfsAux g2 fuel queue visited reachable := by
  intro fuel
  induction fuel with
  | zero => intro queue visited reachable; rfl
  | succ n ih =>
    intro queue visited reachable
    match queue with
    | [] => rfl
    | st :: rest =>
      show bfsAux g1 (n + 1) (st :: rest) visited reachable =
        bfsAux g2 (n + 1) (st :: rest) visited reachable
      conv_lhs => unfold bfsAux
      conv_rhs => unfold bfsAux
      dsimp only
      rw [getValidMoves_classEq h]
      by_cases hk : reachKey st ∈ visited
      · rw [if_pos hk, if_pos hk]
        exact ih rest visited reachable
      · rw [if_neg hk, if_neg hk]
        exact ih _ _ _

theorem getReachablePositions_classEq {g1 g2 : Level} (h : classEq g1 g2)
    (startX startY : Int) (maxIterations : Nat) :
    getReachablePositions g1 startX startY maxIterations =
      getReachablePositions g2 startX startY maxIterations :=
  bfsAux_classEq h _ _ _ _

/-!  Write-tracking lemmas for entity placement. -/

theorem rowLen_setTile (l : Level) (x y : Int) (t : Tile) (n : Nat) :
    ((setTile l x y t).get? n).map List.length = (l.get? n).map List.length := by
  rcases setTile_cases l x y t with heq | ⟨row, hrow, heq⟩
  · rw [heq]
  · rw [heq]
    by_cases hn : y.toNat = n
    · subst hn
      have hlt : y.toNat < l.length := by
        by_contra hcon
        rw [List.get?_eq_none.mpr (by omega)] at hrow
        exact Option.noConfusion hrow
      rw [List.get?_set_eq_of_lt _ hlt, hrow]
      simp [List.length_set]
    · rw [List.get?_set_ne _ _ hn]

theorem classEq_setTile_blank (l : Level) (x y : Int) (t : Tile)
    (hblank : tclass (some t) = TClass.blank)
    (hemp : getTile l x y = some Tile.empty) :
    classEq l (setTile l x y t) := by
  refine ⟨(length_setTile l x y t).symm, fun n => (rowLen_setTile l x y t n).symm, ?_⟩
  intro a b
  by_cases hab : a = x ∧ b = y
  · obtain ⟨ha, hb⟩ := hab
    subst ha
    subst hb
    rw [hemp, getTile_setTile_self l a b t (by rw [hemp]; rfl), hblank]
    rfl
  · rw [getTile_setTile_ne l x y a b t hab]

theorem classEq_placeOnEmptyFold (t : Tile) (hblank : tclass (some t) = TClass.blank) :
    ∀ (ps : List Pos) (l : Level), classEq l (placeOnEmptyFold t l ps) := by
  intro ps
  induction ps with
  | nil => intro l; exact classEq_refl l
  | cons p rest ih =>
    intro l
    show classEq l (placeOnEmptyFold t
      (if getTile l p.x p.y = some Tile.empty then setTile l p.x p.y t else l) rest)
    by_cases hemp : getTile l p.x p.y = some Tile.empty
    · rw [if_pos hemp]
      exact classEq_trans (classEq_setTile_blank l p.x p.y t hblank hemp) (ih _)
    · rw [if_neg hemp]
      exact ih l

theorem placeOnEmptyFold_origin (t : Tile) :
    ∀ (ps : List Pos) (l : Level) (x y : Int) (u : Tile),
      getTile (placeOnEmptyFold t l ps) x y = some u →
      getTile l x y = some u ∨ (u = t ∧ (⟨x, y⟩ : Pos) ∈ ps) := by
  intro ps
  induction ps with
  | nil => intro l x y u h; exact Or.inl h
  | cons p rest ih =>
    intro l x y u h
    have h2 : getTile (placeOnEmptyFold t
        (if getTile l p.x p.y = some Tile.empty then setTile l p.x p.y t else l) rest)
        x y = some u := h
    rcases ih _ x y u h2 with h3 | h3
    · by_cases hemp : getTile l p.x p.y = some Tile.empty
      · rw [if_pos hemp] at h3
        by_cases hp : x = p.x ∧ y = p.y
        · obtain ⟨hx, hy⟩ := hp
          have hself : getTile (setTile l p.x p.y t) x y = some t := by
            rw [hx, hy]
            exact getTile_setTile_self l p.x p.y t (by rw [hemp]; rfl)
          rw [hself] at h3
          refine Or.inr ⟨(Option.some.inj h3).symm, ?_⟩
          rw [hx, hy]
          exact List.mem_cons_self _ _
        · rw [getTile_setTile_ne l p.x p.y x y t hp] at h3
          exact Or.inl h3
      · rw [if_neg hemp] at h3
        exact Or.inl h3
    · exact Or.inr ⟨h3.1, List.mem_cons_of_mem _ h3.2⟩

theorem setTile_eq_of_oob (l : Level) (x y : Int) (t : Tile)
    (h : getTile l x y = none) : setTile l x y t = l := by
  unfold getTile at h
  unfold setTile
  by_cases hb : 0 ≤ y ∧ 0 ≤ x
  · rw [if_pos hb]
    cases hrow : l.get? y.toNat with
    | none => rfl
    | some row =>
      rw [hrow] at h
      dsimp only at h ⊢
      obtain ⟨hb1, hb2⟩ := hb
      by_cases hg : y < 0 ∨ x < 0 ∨ (row.length : Int) ≤ x
      · rcases hg with hg | hg | hg
        · exact absurd hg (by omega)
        · exact absurd hg (by omega)
        · rw [if_neg (show ¬ x < (row.length : Int) by omega)]
      · rw [if_neg hg] at h
        exfalso
        rw [List.get?_eq_none] at h
        push_neg at hg
        omega
  · rw [if_neg hb]

theorem getTile_setTile_val_or (l : Level) (a b x y : Int) (t u : Tile)
    (h : getTile (setTile l a b t) x y = some u) :
    u = t ∨ getTile l x y = some u := by
  by_cases hp : x = a ∧ y = b
  · obtain ⟨hx, hy⟩ := hp
    subst hx
    subst hy
    cases hs : getTile l x y with
    | none =>
      rw [setTile_eq_of_oob l x y t hs, hs] at h
      exact Option.noConfusion h
    | some w =>
      rw [getTile_setTile_self l x y t (by rw [hs]; rfl)] at h
      exact Or.inl (Option.some.inj h).symm
  · rw [getTile_setTile_ne l a b x y t hp] at h
    exact Or.inr h

theorem findTiles_tile (l : Level) (t : Tile) (p : Pos) (h : p ∈ findTiles l t) :
    getTile l p.x p.y = some t := by
  unfold findTiles at h
  rw [List.mem_flatMap] at h
  obtain ⟨yn, hyn, hp⟩ := h
  rw [List.mem_filterMap] at hp
  obtain ⟨xn, hxn, heq⟩ := hp
  by_cases hrow : ((l.get? yn).getD []).get? xn = some t
  · rw [if_pos hrow] at heq
    have hp2 : p = ⟨(xn : Int), (yn : Int)⟩ := (Option.some.inj heq).symm
    subst hp2
    unfold getTile
    cases hl : l.get? (((yn : Nat) : Int)).toNat with
    | none =>
      exfalso
      rw [Int.toNat_natCast] at hl
      rw [hl] at hrow
      simp at hrow
    | some row =>
      rw [Int.toNat_natCast] at hl
      rw [hl, Option.getD_some] at hrow
      have hb : xn < row.length := by
        by_contra hcon
        rw [List.get?_eq_none.mpr (by omega)] at hrow
        exact Option.noConfusion hrow
      show (if ((yn : Nat) : Int) < 0 ∨ ((xn : Nat) : Int) < 0 ∨
          (row.length : Int) ≤ ((xn : Nat) : Int) then (none : Option Tile)
        else row.get? (((xn : Nat) : Int)).toNat) = some t
      rw [if_neg (by push_neg; refine ⟨by omega, by omega, by omega⟩), Int.toNat_natCast]
      exact hrow
  · rw [if_neg hrow] at heq
    exact Option.noConfusion heq

theorem getSpawnPosition_tile (l : Level) (p : Pos)
    (h : getSpawnPosition l = some p) : getTile l p.x p.y = some Tile.spawn := by
  unfold getSpawnPosition at h
  exact findTiles_tile l Tile.spawn p (List.mem_of_mem_head? h)

theorem entityFree_getTile (l : Level) (hfree : entityFreeB l = true) (x y : Int)
    (t : Tile) (h : getTile l x y = some t) :
    ¬ t = Tile.gold ∧ ¬ t = Tile.enemy ∧ ¬ t = Tile.spawn := by
  unfold getTile at h
  cases hrow : l.get? y.toNat with
  | none => rw [hrow] at h; exact Option.noConfusion h
  | some row =>
    rw [hrow] at h
    dsimp only at h
    by_cases hg : y < 0 ∨ x < 0 ∨ (row.length : Int) ≤ x
    · rw [if_pos hg] at h
      exact Option.noConfusion h
    · rw [if_neg hg] at h
      have hrmem : row ∈ l := List.get?_mem hrow
      have htmem : t ∈ row := List.get?_mem h
      unfold entityFreeB at hfree
      rw [List.all_eq_true] at hfree
      have h2 := hfree row hrmem
      rw [List.all_eq_true] at h2
      have h3 := of_decide_eq_true (h2 t htmem)
      push_neg at h3
      exact h3

theorem shuffleInsert_mem (rng : Nat → ℚ) (p : Pos) :
    ∀ (l : List Pos) (i : Nat) (q : Pos),
      q ∈ (shuffleInsert rng p l i).1 → q = p ∨ q ∈ l := by
  intro l
  induction l with
  | nil =>
    intro i q hq
    exact Or.inl (List.mem_singleton.mp hq)
  | cons r rest ih =>
    intro i q hq
    by_cases hr : rng i - 1 / 2 < 0
    · rw [show shuffleInsert rng p (r :: rest) i = (p :: r :: rest, i + 1) from by
        show (if rng i - 1 / 2 < 0 then _ else _) = _
        rw [if_pos hr]] at hq
      rcases List.mem_cons.mp hq with h1 | h1
      · exact Or.inl h1
      · exact Or.inr h1
    · rw [show shuffleInsert rng p (r :: rest) i =
          (r :: (shuffleInsert rng p rest (i + 1)).1, (shuffleInsert rng p rest (i + 1)).2)
          from by
        show (if rng i - 1 / 2 < 0 then _ else _) = _
        rw [if_neg hr]] at hq
      rcases List.mem_cons.mp hq with h1 | h1
      · exact Or.inr (h1 ▸ List.mem_cons_self _ _)
      · rcases ih (i + 1) q h1 with h2 | h2
        · exact Or.inl h2
        · exact Or.inr (List.mem_cons_of_mem _ h2)

theorem shuffleList_mem (rng : Nat → ℚ) :
    ∀ (l : List Pos) (i : Nat) (q : Pos), q ∈ (shuffleList rng l i).1 → q ∈ l := by
  intro l
  induction l with
  | nil =>
    intro i q hq
    exact absurd hq (by simp [shuffleList])
  | cons p rest ih =>
    intro i q hq
    have h1 : q ∈ (shuffleInsert rng p (shuffleList rng rest i).1
        (shuffleList rng rest i).2).1 := hq
    rcases shuffleInsert_mem rng p _ _ q h1 with h2 | h2
    · exact h2 ▸ List.mem_cons_self _ _
    · exact List.mem_cons_of_mem _ (ih _ _ h2)

theorem gold_reachable_after_folds (level1 : Level) (sx sy : Int)
    (goldTargets enemyTargets : List Pos)
    (hgts : ∀ p ∈ goldTargets, p ∈ getReachablePositions level1 sx sy)
    (hnogold : ∀ a b : Int, ¬ getTile level1 a b = some Tile.gold)
    (x y : Int)
    (hgold : getTile (placeOnEmptyFold Tile.enemy
      (placeOnEmptyFold Tile.gold level1 goldTargets) enemyTargets) x y = some Tile.gold) :
    (⟨x, y⟩ : Pos) ∈ getReachablePositions (placeOnEmptyFold Tile.enemy
      (placeOnEmptyFold Tile.gold level1 goldTargets) enemyTargets) sx sy := by
  have hclass : classEq level1 (placeOnEmptyFold Tile.enemy
      (placeOnEmptyFold Tile.gold level1 goldTargets) enemyTargets) :=
    classEq_trans (classEq_placeOnEmptyFold Tile.gold rfl goldTargets level1)
      (classEq_placeOnEmptyFold Tile.enemy rfl enemyTargets _)
  rcases placeOnEmptyFold_origin Tile.enemy enemyTargets _ x y Tile.gold hgold with h2 | h2
  · rcases placeOnEmptyFold_origin Tile.gold goldTargets level1 x y Tile.gold h2 with h3 | h3
    · exact absurd h3 (hnogold x y)
    · rw [← getReachablePositions_classEq hclass sx sy 50000]
      exact hgts _ h3.2
  · exact absurd h2.1 (by decide)

theorem spawn_unique_after_folds (level : Level) (spawn : Pos)
    (goldTargets enemyTargets : List Pos) (hfree : entityFreeB level = true) (sp : Pos)
    (hsp : getSpawnPosition (placeOnEmptyFold Tile.enemy (placeOnEmptyFold Tile.gold
      (setTile level spawn.x spawn.y Tile.spawn) goldTargets) enemyTargets) = some sp) :
    sp = spawn := by
  have htile := getSpawnPosition_tile _ _ hsp
  rcases placeOnEmptyFold_origin Tile.enemy enemyTargets _ sp.x sp.y Tile.spawn htile
    with h2 | h2
  · rcases placeOnEmptyFold_origin Tile.gold goldTargets _ sp.x sp.y Tile.spawn h2
      with h3 | h3
    · rcases getTile_setTile_val_or level spawn.x spawn.y sp.x sp.y Tile.spawn Tile.spawn h3
        with h4 | h4
      · by_cases hp : sp.x = spawn.x ∧ sp.y = spawn.y
        · obtain ⟨hx, hy⟩ := hp
          cases sp
          cases spawn
          simp_all
        · rw [getTile_setTile_ne level spawn.x spawn.y sp.x sp.y Tile.spawn hp] at h3
          exact absurd rfl (entityFree_getTile level hfree sp.x sp.y Tile.spawn h3).2.2
      · exact absurd rfl (entityFree_getTile level hfree sp.x sp.y Tile.spawn h4).2.2
    · exact absurd h3.1 (by decide)
  · exact absurd h2.1 (by decide)

theorem placeEntitiesCore_gold_reachable (level : Level) (spawn : Pos)
    (goldCount enemyCount : Nat) (rng : Nat → ℚ) (i0 : Nat)
    (hfree : entityFreeB level = true) (sp : Pos)
    (hsp : getSpawnPosition
      (placeEntitiesCore level spawn goldCount enemyCount rng i0).1 = some sp)
    (x y : Int)
    (hgold : getTile (placeEntitiesCore level spawn goldCount enemyCount rng i0).1 x y =
      some Tile.gold) :
    (⟨x, y⟩ : Pos) ∈ getReachablePositions
      (placeEntitiesCore level spawn goldCount enemyCount rng i0).1 sp.x sp.y := by
  unfold placeEntitiesCore at hsp hgold ⊢
  dsimp only at hsp hgold ⊢
  have hspeq : sp = spawn := spawn_unique_after_folds level spawn _ _ hfree sp hsp
  subst hspeq
  refine gold_reachable_after_folds (setTile level sp.x sp.y Tile.spawn) sp.x sp.y _ _
    ?_ ?_ x y hgold
  · intro p hp
    have hp2 := List.take_subset _ _ hp
    have hp3 := shuffleList_mem rng _ _ p hp2
    exact of_decide_eq_true (List.mem_filter.mp hp3).2
  · intro a b hg
    rcases getTile_setTile_val_or level sp.x sp.y a b Tile.spawn Tile.gold hg with h4 | h4
    · exact absurd h4 (by decide)
    · exact absurd rfl (entityFree_getTile level hfree a b Tile.gold h4).1

/-- Claim C1: on any entity-free structure, every Gold tile present in
the level produced by `placeEntities` lies in the reachable set computed
on the output level from the output's spawn cell: gold is placed only at
positions of the reachable set computed after the spawn was written, and
Gold/Enemy placement overwrites only Empty cells, which does not change
any movement-relevant cell class, hence not the reachable set. -/
theorem placement_gold_reachable (struct0 : Level) (goldCount enemyCount : Nat)
    (rng : Nat → ℚ) (i0 : Nat) (hfree : entityFreeB struct0 = true) (sp : Pos)
    (hsp : getSpawnPosition (placeEntities struct0 goldCount enemyCount rng i0).1 =
      some sp)
    (x y : Int)
    (hgold : getTile (placeEntities struct0 goldCount enemyCount rng i0).1 x y =
      some Tile.gold) :
    (⟨x, y⟩ : Pos) ∈ getReachablePositions
      (placeEntities struct0 goldCount enemyCount rng i0).1 sp.x sp.y := by
  unfold placeEntities at hsp hgold ⊢
  dsimp only at hsp hgold ⊢
  cases hvs : (if validPositions struct0 = [] then fallbackSpawn struct0
      else validPositions struct0) with
  | nil =>
    rw [hvs] at hsp hgold
    exact absurd rfl (entityFree_getTile struct0 hfree x y Tile.gold hgold).1
  | cons vp0 vps =>
    rw [hvs] at hsp hgold
    exact placeEntitiesCore_gold_reachable struct0 _ goldCount enemyCount rng i0 hfree
      sp hsp x y hgold

/-- Witness for C1 on a concrete 3×3 structure with one gold piece. -/
theorem placement_gold_reachable_witness :
    (entityFreeB floor3Grid = true ∧
      getSpawnPosition (placeEntities floor3Grid 1 0 zeroRng 0).1 = some ⟨0, 1⟩ ∧
      getTile (placeEntities floor3Grid 1 0 zeroRng 0).1 1 1 = some Tile.gold) ∧
    (⟨1, 1⟩ : Pos) ∈ getReachablePositions (placeEntities floor3Grid 1 0 zeroRng 0).1 0 1 :=
  ⟨⟨by decide, by with_unfolding_all decide, by with_unfolding_all decide⟩,
   placement_gold_reachable floor3Grid 1 0 zeroRng 0 (by decide) ⟨0, 1⟩
     (by with_unfolding_all decide) 1 1 (by with_unfolding_all decide)⟩

end LodeRunner
